import Mathlib

/-!
Shallow embedding of the log-structured filesystem (lfs-using-fuse).

The disk is modelled byte-exactly: a block is a function from byte index to
byte value, and the disk is a function from block number to block.  All the
on-disk structures (superblock, inode, directory entry, segment summary) are
encoded and decoded through little-endian 32-bit fields, mirroring the packed
C structs in lfs.h.  The in-memory runtime state mirrors struct lfs_state.
-/

namespace LFS

/-- BLOCK_SIZE from lfs.h. -/
def BLOCK_SIZE : Nat := 4096
/-- TOTAL_BLOCKS from lfs.h. -/
def TOTAL_BLOCKS : Nat := 1024
/-- INODE_MAP_BLOCK from lfs.h. -/
def INODE_MAP_BLOCK : Nat := 1
/-- INODE_MAP_SIZE from lfs.h. -/
def INODE_MAP_SIZE : Nat := 256
/-- LOG_START_BLOCK from lfs.h. -/
def LOG_START_BLOCK : Nat := 10
/-- BLOCKS_PER_SEGMENT from lfs.h. -/
def BLOCKS_PER_SEGMENT : Nat := 32
/-- SEGMENT_COUNT from lfs.h. -/
def SEGMENT_COUNT : Nat := 32
/-- GC_THRESHOLD from lfs.h. -/
def GC_THRESHOLD : Nat := 700
/-- MAX_DIRECT_PTRS from lfs.h. -/
def MAX_DIRECT_PTRS : Nat := 10
/-- MAX_NAME_LEN from lfs.h. -/
def MAX_NAME_LEN : Nat := 28
/-- LFS_MAGIC from lfs.h. -/
def LFS_MAGIC : Nat := 0x4C465331

/-- A 4096-byte block, as a function from byte offset to byte value. -/
abbrev Block := Nat → Nat

/-- The disk image: block number to block content. -/
abbrev Disk := Nat → Block

/-- The all-zero block (memset 0). -/
def zeroBlock : Block := fun _ => 0

/-- Pointwise update of a function at one argument. -/
def updF (f : Nat → Nat) (k v : Nat) : Nat → Nat :=
  fun x => if x = k then v else f x

/-- disk_write from disk.c: replace one whole block. -/
def diskWrite (d : Disk) (blk : Nat) (b : Block) : Disk :=
  fun x => if x = blk then b else d x

/-- Read a little-endian uint32 from four bytes of a block. -/
def readU32 (b : Block) (off : Nat) : Nat :=
  b off % 256 + 256 * (b (off + 1) % 256) + 65536 * (b (off + 2) % 256)
    + 16777216 * (b (off + 3) % 256)

/-- Store a little-endian uint32 into four bytes of a block. -/
def writeU32 (b : Block) (off v : Nat) : Block :=
  fun i =>
    if i = off then v % 256
    else if i = off + 1 then v / 256 % 256
    else if i = off + 2 then v / 65536 % 256
    else if i = off + 3 then v / 16777216 % 256
    else b i

theorem readU32_lt (b : Block) (off : Nat) : readU32 b off < 4294967296 := by
  unfold readU32
  have h0 : b off % 256 < 256 := Nat.mod_lt _ (by norm_num)
  have h1 : b (off + 1) % 256 < 256 := Nat.mod_lt _ (by norm_num)
  have h2 : b (off + 2) % 256 < 256 := Nat.mod_lt _ (by norm_num)
  have h3 : b (off + 3) % 256 < 256 := Nat.mod_lt _ (by norm_num)
  omega

theorem u32_recompose (v : Nat) :
    v % 256 + 256 * (v / 256 % 256) + 65536 * (v / 65536 % 256)
      + 16777216 * (v / 16777216 % 256) = v % 4294967296 := by
  omega

theorem updF_self (f : Nat → Nat) (k v : Nat) : updF f k v k = v := by
  simp [updF]

theorem updF_ne (f : Nat → Nat) (k v x : Nat) (h : x ≠ k) : updF f k v x = f x := by
  simp [updF, h]

theorem diskWrite_self (d : Disk) (blk : Nat) (b : Block) : diskWrite d blk b blk = b := by
  simp [diskWrite]

theorem diskWrite_ne (d : Disk) (blk : Nat) (b : Block) (x : Nat) (h : x ≠ blk) :
    diskWrite d blk b x = d x := by
  simp [diskWrite, h]

theorem writeU32_frame (b : Block) (off v i : Nat) (h : i < off ∨ off + 4 ≤ i) :
    writeU32 b off v i = b i := by
  unfold writeU32
  rcases h with h | h
  · rw [if_neg (by omega), if_neg (by omega), if_neg (by omega), if_neg (by omega)]
  · rw [if_neg (by omega), if_neg (by omega), if_neg (by omega), if_neg (by omega)]

theorem readU32_writeU32_same (b : Block) (off v : Nat) :
    readU32 (writeU32 b off v) off = v % 4294967296 := by
  unfold readU32 writeU32
  rw [if_pos rfl]
  rw [if_neg (by omega), if_pos rfl]
  rw [if_neg (by omega), if_neg (by omega), if_pos rfl]
  rw [if_neg (by omega), if_neg (by omega), if_neg (by omega), if_pos rfl]
  omega

theorem readU32_writeU32_disjoint (b : Block) (off v o : Nat)
    (h : o + 4 ≤ off ∨ off + 4 ≤ o) : readU32 (writeU32 b off v) o = readU32 b o := by
  unfold readU32
  rw [writeU32_frame b off v o (by omega), writeU32_frame b off v (o + 1) (by omega),
    writeU32_frame b off v (o + 2) (by omega), writeU32_frame b off v (o + 3) (by omega)]

/-! ## On-disk structures (lfs.h) -/

/-- struct lfs_superblock (block 0).  The pad field carries the raw bytes of
the packed struct beyond the six uint32 fields, since lfs_init memcpys the
whole 4096-byte block into the in-memory copy and checkpoint writes it back. -/
structure Superblock where
  magic : Nat
  block_size : Nat
  total_blocks : Nat
  inode_map_block : Nat
  log_start : Nat
  log_tail : Nat
  pad : Nat → Nat

/-- struct lfs_inode.  direct is the 10-entry array of data block pointers;
pad carries the packed bytes past offset 56, which inode_read copies in and
inode_write writes back out. -/
structure Inode where
  inode_no : Nat
  type : Nat
  size : Nat
  nlinks : Nat
  direct : Nat → Nat
  pad : Nat → Nat

/-- struct lfs_state: the in-memory runtime state. -/
structure LfsState where
  sb : Superblock
  inode_map : Nat → Nat
  log_tail : Nat

/-- Serialize the superblock into a 4096-byte block, as the memcpy of the
packed struct does: six little-endian uint32 fields then the pad bytes. -/
def encodeSb (s : Superblock) : Block := fun i =>
  if i < 4 then s.magic / 256 ^ i % 256
  else if i < 8 then s.block_size / 256 ^ (i - 4) % 256
  else if i < 12 then s.total_blocks / 256 ^ (i - 8) % 256
  else if i < 16 then s.inode_map_block / 256 ^ (i - 12) % 256
  else if i < 20 then s.log_start / 256 ^ (i - 16) % 256
  else if i < 24 then s.log_tail / 256 ^ (i - 20) % 256
  else s.pad i % 256

/-- Read a superblock out of a raw block (the memcpy in lfs_init). -/
def decodeSb (b : Block) : Superblock where
  magic := readU32 b 0
  block_size := readU32 b 4
  total_blocks := readU32 b 8
  inode_map_block := readU32 b 12
  log_start := readU32 b 16
  log_tail := readU32 b 20
  pad := b

/-- Serialize an inode into a 4096-byte block (memcpy of the packed struct):
four uint32 fields, ten uint32 direct pointers, then the pad bytes. -/
def encodeInode (n : Inode) : Block := fun i =>
  if i < 4 then n.inode_no / 256 ^ i % 256
  else if i < 8 then n.type / 256 ^ (i - 4) % 256
  else if i < 12 then n.size / 256 ^ (i - 8) % 256
  else if i < 16 then n.nlinks / 256 ^ (i - 12) % 256
  else if i < 56 then n.direct ((i - 16) / 4) / 256 ^ ((i - 16) % 4) % 256
  else n.pad i % 256

/-- Read an inode out of a raw block (the memcpy in inode_read). -/
def decodeInode (b : Block) : Inode where
  inode_no := readU32 b 0
  type := readU32 b 4
  size := readU32 b 8
  nlinks := readU32 b 12
  direct := fun j => readU32 b (16 + 4 * j)
  pad := b

/-- Serialize the in-memory inode map into a block: 256 little-endian uint32
entries, zero padding beyond byte 1024 (log_checkpoint). -/
def encodeImap (m : Nat → Nat) : Block := fun i =>
  if i < 1024 then m (i / 4) / 256 ^ (i % 4) % 256 else 0

theorem decode_encodeSb_magic (s : Superblock) :
    (decodeSb (encodeSb s)).magic = s.magic % 4294967296 := by
  show readU32 (encodeSb s) 0 = s.magic % 4294967296
  unfold readU32 encodeSb
  norm_num
  omega

theorem decode_encodeSb_total (s : Superblock) :
    (decodeSb (encodeSb s)).total_blocks = s.total_blocks % 4294967296 := by
  show readU32 (encodeSb s) 8 = s.total_blocks % 4294967296
  unfold readU32 encodeSb
  norm_num
  omega

theorem decode_encodeSb_log_tail (s : Superblock) :
    (decodeSb (encodeSb s)).log_tail = s.log_tail % 4294967296 := by
  show readU32 (encodeSb s) 20 = s.log_tail % 4294967296
  unfold readU32 encodeSb
  norm_num
  omega

theorem decode_encodeInode_inode_no (n : Inode) :
    (decodeInode (encodeInode n)).inode_no = n.inode_no % 4294967296 := by
  show readU32 (encodeInode n) 0 = n.inode_no % 4294967296
  unfold readU32 encodeInode
  norm_num
  omega

theorem decode_encodeInode_type (n : Inode) :
    (decodeInode (encodeInode n)).type = n.type % 4294967296 := by
  show readU32 (encodeInode n) 4 = n.type % 4294967296
  unfold readU32 encodeInode
  norm_num
  omega

theorem decode_encodeInode_size (n : Inode) :
    (decodeInode (encodeInode n)).size = n.size % 4294967296 := by
  show readU32 (encodeInode n) 8 = n.size % 4294967296
  unfold readU32 encodeInode
  norm_num
  omega

theorem decode_encodeInode_nlinks (n : Inode) :
    (decodeInode (encodeInode n)).nlinks = n.nlinks % 4294967296 := by
  show readU32 (encodeInode n) 12 = n.nlinks % 4294967296
  unfold readU32 encodeInode
  norm_num
  omega

theorem decode_encodeInode_direct (n : Inode) (j : Nat) (hj : j < 10) :
    (decodeInode (encodeInode n)).direct j = n.direct j % 4294967296 := by
  show readU32 (encodeInode n) (16 + 4 * j) = n.direct j % 4294967296
  unfold readU32 encodeInode
  have e0 : ¬ (16 + 4 * j < 4) := by omega
  have e1 : ¬ (16 + 4 * j < 8) := by omega
  have e2 : ¬ (16 + 4 * j < 12) := by omega
  have e3 : ¬ (16 + 4 * j < 16) := by omega
  have e4 : 16 + 4 * j < 56 := by omega
  have f0 : ¬ (16 + 4 * j + 1 < 16) := by omega
  have f1 : 16 + 4 * j + 1 < 56 := by omega
  have f2 : 16 + 4 * j + 2 < 56 := by omega
  have f3 : 16 + 4 * j + 3 < 56 := by omega
  have g0 : (16 + 4 * j - 16) / 4 = j := by omega
  have g1 : (16 + 4 * j + 1 - 16) / 4 = j := by omega
  have g2 : (16 + 4 * j + 2 - 16) / 4 = j := by omega
  have g3 : (16 + 4 * j + 3 - 16) / 4 = j := by omega
  have m0 : (16 + 4 * j - 16) % 4 = 0 := by omega
  have m1 : (16 + 4 * j + 1 - 16) % 4 = 1 := by omega
  have m2 : (16 + 4 * j + 2 - 16) % 4 = 2 := by omega
  have m3 : (16 + 4 * j + 3 - 16) % 4 = 3 := by omega
  rw [if_neg e0, if_neg e1, if_neg e2, if_neg e3, if_pos e4,
    if_neg (by omega), if_neg (by omega), if_neg (by omega), if_neg f0, if_pos f1,
    if_neg (by omega), if_neg (by omega), if_neg (by omega), if_neg (by omega), if_pos f2,
    if_neg (by omega), if_neg (by omega), if_neg (by omega), if_neg (by omega), if_pos f3,
    g0, g1, g2, g3, m0, m1, m2, m3]
  norm_num
  omega

theorem decode_encodeImap (m : Nat → Nat) (i : Nat) (hi : i < 256) :
    readU32 (encodeImap m) (4 * i) = m i % 4294967296 := by
  unfold readU32 encodeImap
  have e0 : 4 * i < 1024 := by omega
  have e1 : 4 * i + 1 < 1024 := by omega
  have e2 : 4 * i + 2 < 1024 := by omega
  have e3 : 4 * i + 3 < 1024 := by omega
  have g0 : 4 * i / 4 = i := by omega
  have g1 : (4 * i + 1) / 4 = i := by omega
  have g2 : (4 * i + 2) / 4 = i := by omega
  have g3 : (4 * i + 3) / 4 = i := by omega
  have m0 : 4 * i % 4 = 0 := by omega
  have m1 : (4 * i + 1) % 4 = 1 := by omega
  have m2 : (4 * i + 2) % 4 = 2 := by omega
  have m3 : (4 * i + 3) % 4 = 3 := by omega
  rw [if_pos e0, if_pos e1, if_pos e2, if_pos e3, g0, g1, g2, g3, m0, m1, m2, m3]
  norm_num
  omega

/-! ## Log layer (log.c) -/

/-- get_summary_block from log.c: the first block of the containing segment. -/
def get_summary_block (block : Nat) : Nat :=
  block / BLOCKS_PER_SEGMENT * BLOCKS_PER_SEGMENT

/-- log_append_ex from log.c.  Returns none exactly when the C function
returns -1 (disk full); on success returns the updated state, the updated
disk, and the block number that was written.  The state is unchanged on
failure, matching the C code which returns before mutating anything. -/
def log_append_ex (st : LfsState) (d : Disk) (buf : Block)
    (inode_no block_idx : Nat) : Option (LfsState × Disk × Nat) :=
  if st.sb.total_blocks ≤ st.log_tail then none
  else
    let block := st.log_tail
    let d1 := diskWrite d block buf
    let sum_block := get_summary_block block
    let off := block - sum_block
    let d2 :=
      if off ≠ 0 then
        let sum := d1 sum_block
        let sum1 := writeU32 (writeU32 sum (8 * off) inode_no) (8 * off + 4) block_idx
        diskWrite d1 sum_block sum1
      else d1
    some ({ st with log_tail := block + 1,
                    sb := { st.sb with log_tail := block + 1 } }, d2, block)

/-- log_append from log.c: the owner-0 convenience wrapper. -/
def log_append (st : LfsState) (d : Disk) (buf : Block) :
    Option (LfsState × Disk × Nat) :=
  log_append_ex st d buf 0 0

/-- log_checkpoint from log.c: write the inode map to block 1 and the
superblock to block 0.  Cannot fail in the model (the disk is total). -/
def log_checkpoint (st : LfsState) (d : Disk) : Disk :=
  diskWrite (diskWrite d INODE_MAP_BLOCK (encodeImap st.inode_map)) 0 (encodeSb st.sb)

/-! ## Inode layer (inode.c) -/

/-- inode_read from inode.c: look the inode up in the map and decode the
block it points at.  none corresponds to the C -1 return. -/
def inode_read (st : LfsState) (d : Disk) (ino : Nat) : Option Inode :=
  if INODE_MAP_SIZE ≤ ino then none
  else if st.inode_map ino = 0 then none
  else some (decodeInode (d (st.inode_map ino)))

/-- inode_write from inode.c: append a fresh copy of the inode to the log
and point the in-memory map at it. -/
def inode_write (st : LfsState) (d : Disk) (n : Inode) : Option (LfsState × Disk) :=
  if INODE_MAP_SIZE ≤ n.inode_no then none
  else
    match log_append st d (encodeInode n) with
    | none => none
    | some (st1, d1, block) =>
        some ({ st1 with inode_map := updF st1.inode_map n.inode_no block }, d1)

/-- inode_alloc from inode.c: first free map slot in [1, 256). -/
def inode_alloc (st : LfsState) : Option Nat :=
  (List.range' 1 255).find? (fun i => st.inode_map i = 0)

/-! ## Garbage collector (gc.c) -/

/-- Wrapping uint32 subtraction, for total_blocks - log_tail in gc_should_run. -/
def u32sub (a b : Nat) : Nat :=
  (a % 4294967296 + 4294967296 - b % 4294967296) % 4294967296

/-- gc_should_run from gc.c: free blocks below GC_THRESHOLD. -/
def gc_should_run (st : LfsState) : Bool :=
  u32sub st.sb.total_blocks st.log_tail < GC_THRESHOLD

/-- is_block_live from gc.c: a block is live if some inode-map entry equals
it, or some allocated inode's direct array contains it.  The inode_no and
block_idx arguments are taken but, as in the C code, not consulted. -/
def is_block_live (st : LfsState) (d : Disk) (block inode_no block_idx : Nat) : Bool :=
  ((List.range INODE_MAP_SIZE).any (fun i => st.inode_map i = block))
  || ((List.range INODE_MAP_SIZE).any (fun i =>
        st.inode_map i ≠ 0 &&
        ((List.range MAX_DIRECT_PTRS).any (fun j =>
          (decodeInode (d (st.inode_map i))).direct j = block))))

/-- The dead-block count of pass 1 in gc_collect, over the positions 1..31 of
a segment; stops at the log tail like the C break. -/
def seg_dead_count (st : LfsState) (d : Disk) (sum : Block) (seg_start : Nat) :
    List Nat → Nat → Nat
  | [], dead => dead
  | i :: rest, dead =>
      let block := seg_start + i
      if st.log_tail ≤ block then dead
      else
        seg_dead_count st d sum seg_start rest
          (if is_block_live st d block (readU32 sum (8 * i)) (readU32 sum (8 * i + 4))
           then dead else dead + 1)

/-- Pass 1 of gc_collect: scan the segments for the one with most dead
blocks, carrying (best_seg, best_dead) with -1 initial values. -/
def gc_scan (st : LfsState) (d : Disk) : List Nat → Int × Int → Int × Int
  | [], best => best
  | seg :: rest, (best_seg, best_dead) =>
      let seg_start := seg * BLOCKS_PER_SEGMENT
      if seg_start < LOG_START_BLOCK then gc_scan st d rest (best_seg, best_dead)
      else if st.log_tail ≤ seg_start then gc_scan st d rest (best_seg, best_dead)
      else
        let sum := d seg_start
        let dead := seg_dead_count st d sum seg_start (List.range' 1 31) 0
        if best_dead < (dead : Int) then gc_scan st d rest ((seg : Int), (dead : Int))
        else gc_scan st d rest (best_seg, best_dead)

/-- Pass 2 of gc_collect: copy the live blocks of the chosen segment forward
and patch the pointers.  The Bool is false when the C code returns -1 from
inside the loop (log full); state mutated so far is kept, as with the global
state in C. -/
def gc_copy (sum : Block) (seg_start : Nat) :
    List Nat → LfsState → Disk → LfsState × Disk × Bool
  | [], st, d => (st, d, true)
  | i :: rest, st, d =>
      let block := seg_start + i
      if st.log_tail ≤ block then (st, d, true)
      else
        let inode_no := readU32 sum (8 * i)
        let block_idx := readU32 sum (8 * i + 4)
        if ¬ is_block_live st d block inode_no block_idx then
          gc_copy sum seg_start rest st d
        else
          match log_append_ex st d (d block) inode_no block_idx with
          | none => (st, d, false)
          | some (st1, d1, new_block) =>
              if st1.inode_map inode_no = block then
                gc_copy sum seg_start rest
                  { st1 with inode_map := updF st1.inode_map inode_no new_block } d1
              else
                match inode_read st1 d1 inode_no with
                | none => gc_copy sum seg_start rest st1 d1
                | some n =>
                    match inode_write st1 d1
                        (if block_idx < MAX_DIRECT_PTRS
                         then { n with direct := updF n.direct block_idx new_block }
                         else n) with
                    | none => gc_copy sum seg_start rest st1 d1
                    | some (st2, d2) => gc_copy sum seg_start rest st2 d2

/-- Pass 3 of gc_collect: zero the cleaned segment, stopping at total_blocks. -/
def gc_zero (total seg_start : Nat) : List Nat → Disk → Disk
  | [], d => d
  | i :: rest, d =>
      if total ≤ seg_start + i then d
      else gc_zero total seg_start rest (diskWrite d (seg_start + i) zeroBlock)

/-- gc_collect from gc.c.  The Bool result is true for the C return value 0
and false for -1; the state and disk are returned in all cases since the C
code mutates them in place. -/
def gc_collect (st : LfsState) (d : Disk) : LfsState × Disk × Bool :=
  match gc_scan st d (List.range SEGMENT_COUNT) (-1, -1) with
  | (best_seg, best_dead) =>
    if best_seg < 0 ∨ best_dead = 0 then (st, d, true)
    else
      let seg_start := best_seg.toNat * BLOCKS_PER_SEGMENT
      let sum := d seg_start
      match gc_copy sum seg_start (List.range' 1 31) st d with
      | (st1, d1, false) => (st1, d1, false)
      | (st1, d1, true) =>
          let d2 := gc_zero st1.sb.total_blocks seg_start (List.range 32) d1
          let st2 :=
            if st1.log_tail ≤ seg_start + BLOCKS_PER_SEGMENT then
              { st1 with log_tail := seg_start,
                         sb := { st1.sb with log_tail := seg_start } }
            else st1
          (st2, log_checkpoint st2 d2, true)

/-! ## FUSE frontend (lfs.c)

Paths and names are byte lists (C strings without their terminator); 47 is
the slash.  The FUSE entry points return -errno values, modelled by Errno. -/

/-- The errno values surfaced by lfs.c. -/
inductive Errno where
  | ENOENT | EIO | ENOTDIR | EISDIR | EFBIG | ENOSPC | EPERM | ENAMETOOLONG | EEXIST
deriving DecidableEq

instance {ε α : Type} [DecidableEq ε] [DecidableEq α] : DecidableEq (Except ε α) := fun
  | .ok a, .ok b => decidable_of_iff (a = b) (by simp)
  | .ok _, .error _ => isFalse (by simp)
  | .error _, .ok _ => isFalse (by simp)
  | .error a, .error b => decidable_of_iff (a = b) (by simp)

/-- Read a NUL-terminated C string out of a block starting at a byte offset:
bytes up to the first zero byte, bounded by the given fuel. -/
def readCStr (b : Block) (off : Nat) : Nat → List Nat
  | 0 => []
  | fuel + 1 =>
      let c := b off % 256
      if c = 0 then [] else c :: readCStr b (off + 1) fuel

/-- The directory-entry scan of path_to_inode: first non-free entry whose
name compares equal to the wanted name (strcmp over the 32-byte dirents). -/
def findEntry (buf : Block) (name : List Nat) : List Nat → Option Nat
  | [] => none
  | i :: rest =>
      if readU32 buf (32 * i) ≠ 0 ∧ readCStr buf (32 * i + 4) 4096 = name
      then some (readU32 buf (32 * i))
      else findEntry buf name rest

/-- path_to_inode from lfs.c. -/
def path_to_inode (st : LfsState) (d : Disk) (path : List Nat) : Except Errno Nat :=
  if path = [47] then .ok 0
  else
    let name := path.drop 1
    if 47 ∈ name then .error .ENOENT
    else
      match inode_read st d 0 with
      | none => .error Errno.EIO
      | some root =>
          let buf := d (root.direct 0)
          let n := root.size / 32
          match findEntry buf name (List.range n) with
          | some ino => .ok ino
          | none => .error .ENOENT

/-- What lfs_getattr fills into struct stat. -/
structure Stat where
  st_ino : Nat
  st_nlink : Nat
  st_size : Nat
  isDir : Bool
deriving DecidableEq

/-- lfs_getattr from lfs.c. -/
def lfs_getattr (st : LfsState) (d : Disk) (path : List Nat) : Except Errno Stat :=
  match path_to_inode st d path with
  | .error e => .error e
  | .ok ino =>
      match inode_read st d ino with
      | none => .error Errno.EIO
      | some n =>
          .ok { st_ino := n.inode_no
                st_nlink := if n.type = 2 then 2 else if n.nlinks ≠ 0 then n.nlinks else 1
                st_size := n.size
                isDir := n.type = 2 }

/-- lfs_readdir from lfs.c: the names passed to the filler, in order. -/
def lfs_readdir (st : LfsState) (d : Disk) (path : List Nat) :
    Except Errno (List (List Nat)) :=
  match path_to_inode st d path with
  | .error e => .error e
  | .ok ino =>
      match inode_read st d ino with
      | none => .error Errno.EIO
      | some dirInode =>
          if dirInode.type ≠ 2 then .error .ENOTDIR
          else
            let dbuf := d (dirInode.direct 0)
            let n := dirInode.size / 32
            let names := (List.range n).filterMap (fun i =>
              let e := readCStr dbuf (32 * i + 4) 4096
              if readU32 dbuf (32 * i) ≠ 0 ∧ e ≠ [46] ∧ e ≠ [46, 46]
              then some e else none)
            .ok ([46] :: [46, 46] :: names)

/-- The while loop of lfs_read: copy chunk by chunk into the output buffer.
Returns (bytes_read, buffer).  The fuel is at least the byte count, and each
iteration copies at least one byte. -/
def read_go (n : Inode) (d : Disk) (offset size : Nat) :
    Nat → Nat → (Nat → Nat) → Nat × (Nat → Nat)
  | 0, bytes_read, out => (bytes_read, out)
  | fuel + 1, bytes_read, out =>
      if size ≤ bytes_read then (bytes_read, out)
      else
        let block_idx := (offset + bytes_read) / BLOCK_SIZE
        let block_off := (offset + bytes_read) % BLOCK_SIZE
        let chunk := min (BLOCK_SIZE - block_off) (size - bytes_read)
        let data : Block := if n.direct block_idx ≠ 0 then d (n.direct block_idx) else zeroBlock
        let out1 := fun i =>
          if bytes_read ≤ i ∧ i < bytes_read + chunk
          then data (block_off + (i - bytes_read)) % 256
          else out i
        read_go n d offset size fuel (bytes_read + chunk) out1

/-- lfs_read from lfs.c.  On success returns the byte count and the filled
output buffer (all other buffer positions are zero). -/
def lfs_read (st : LfsState) (d : Disk) (path : List Nat) (size offset : Nat) :
    Except Errno (Nat × (Nat → Nat)) :=
  match path_to_inode st d path with
  | .error e => .error e
  | .ok ino =>
      match inode_read st d ino with
      | none => .error Errno.EIO
      | some n =>
          if n.type ≠ 1 then .error .EISDIR
          else if n.size ≤ offset then .ok (0, fun _ => 0)
          else
            let size1 := if n.size < offset + size then n.size - offset else size
            .ok (read_go n d offset size1 size1 0 (fun _ => 0))

/-- The per-block loop of lfs_write.  Carries (inode, state, disk); a some
error is an early return (EIO after a failed re-read, ENOSPC on a full log),
with the mutations so far kept, as with the global state in C. -/
def write_go (ino : Nat) (buf : Nat → Nat) (offset size : Nat) :
    List Nat → Inode → LfsState → Disk → (Inode × LfsState × Disk) × Option Errno
  | [], n, st, d => ((n, st, d), none)
  | blk :: rest, n, st, d =>
      let blk_start := blk * BLOCK_SIZE
      let blk_end := blk_start + BLOCK_SIZE
      let write_start := max offset blk_start
      let write_end := min (offset + size) blk_end
      let blk_off := write_start - blk_start
      let buf_off := write_start - offset
      let chunk := write_end - write_start
      let overlay : Inode → Disk → Block := fun n d => fun i =>
        if blk_off ≤ i ∧ i < blk_off + chunk then buf (buf_off + (i - blk_off)) % 256
        else if n.direct blk ≠ 0 then d (n.direct blk) i % 256 else 0
      if gc_should_run st then
        match gc_collect st d with
        | (st1, d1, _) =>
          match inode_read st1 d1 ino with
          | none => ((n, st1, d1), some Errno.EIO)
          | some n1 =>
              match log_append_ex st1 d1 (overlay n1 d1) ino blk with
              | none => ((n1, st1, d1), some .ENOSPC)
              | some (st2, d2, new_blk) =>
                  write_go ino buf offset size rest
                    { n1 with direct := updF n1.direct blk new_blk } st2 d2
      else
        match log_append_ex st d (overlay n d) ino blk with
        | none => ((n, st, d), some .ENOSPC)
        | some (st2, d2, new_blk) =>
            write_go ino buf offset size rest
              { n with direct := updF n.direct blk new_blk } st2 d2

/-- lfs_write from lfs.c.  Returns the mutated state and disk together with
the FUSE result (byte count or -errno). -/
def lfs_write (st : LfsState) (d : Disk) (path : List Nat)
    (offset size : Nat) (buf : Nat → Nat) : LfsState × Disk × Except Errno Nat :=
  match path_to_inode st d path with
  | .error e => (st, d, .error e)
  | .ok ino =>
      match inode_read st d ino with
      | none => (st, d, .error Errno.EIO)
      | some n =>
          if n.type ≠ 1 then (st, d, .error .EISDIR)
          else
            let max_size := MAX_DIRECT_PTRS * BLOCK_SIZE
            if max_size ≤ offset then (st, d, .error .EFBIG)
            else
              let size1 := if max_size < offset + size then max_size - offset else size
              let first_blk := offset / BLOCK_SIZE
              let last_blk := (offset + size1 - 1) / BLOCK_SIZE
              match write_go ino buf offset size1
                      (List.range' first_blk (last_blk + 1 - first_blk)) n st d with
              | ((_, st1, d1), some e) => (st1, d1, .error e)
              | ((n1, st1, d1), none) =>
                  let new_end := offset + size1
                  let n2 := if n1.size < new_end then { n1 with size := new_end } else n1
                  match inode_write st1 d1 n2 with
                  | none => (st1, d1, .error Errno.EIO)
                  | some (st2, d2) => (st2, log_checkpoint st2 d2, .ok size1)

/-- lfs_truncate from lfs.c. -/
def lfs_truncate (st : LfsState) (d : Disk) (path : List Nat) (size : Nat) :
    LfsState × Disk × Except Errno Nat :=
  if size ≠ 0 then (st, d, .error .EPERM)
  else
    match path_to_inode st d path with
    | .error e => (st, d, .error e)
    | .ok ino =>
        match inode_read st d ino with
        | none => (st, d, .error Errno.EIO)
        | some n =>
            let n1 := { n with size := 0,
                               direct := (List.range MAX_DIRECT_PTRS).foldl
                                           (fun f i => updF f i 0) n.direct }
            match inode_write st d n1 with
            | none => (st, d, .error Errno.EIO)
            | some (st1, d1) => (st1, log_checkpoint st1 d1, .ok 0)

/-- Write one fresh directory entry into a directory data block at the given
slot, as lfs_create does: the inode number, then strncpy of the name into
the 27 name bytes (zero padded; byte 31 of the slot is left as read). -/
def setDirent (b : Block) (slot ino : Nat) (name : List Nat) : Block := fun i =>
  if 32 * slot ≤ i ∧ i < 32 * slot + 4 then ino / 256 ^ (i - 32 * slot) % 256
  else if 32 * slot + 4 ≤ i ∧ i < 32 * slot + 31 then
    (if i - (32 * slot + 4) < name.length then name.getD (i - (32 * slot + 4)) 0 % 256 else 0)
  else b i

/-- The part of lfs_create after the GC check: write the fresh inode, add
the directory entry, rewrite the root inode, checkpoint. -/
def lfs_create_rest (st1 : LfsState) (d1 : Disk) (ino : Nat) (name : List Nat) :
    LfsState × Disk × Except Errno Nat :=
  match inode_write st1 d1
      { inode_no := ino, type := 1, size := 0, nlinks := 1,
        direct := fun _ => 0, pad := fun _ => 0 } with
  | none => (st1, d1, .error Errno.EIO)
  | some (st2, d2) =>
      match inode_read st2 d2 0 with
      | none => (st2, d2, .error Errno.EIO)
      | some root =>
          if BLOCK_SIZE ≤ root.size / 32 * 32 then (st2, d2, .error .ENOSPC)
          else
            match log_append_ex st2 d2
                (setDirent (d2 (root.direct 0)) (root.size / 32) ino name) 0 0 with
            | none => (st2, d2, .error .ENOSPC)
            | some (st3, d3, new_dir_block) =>
                match inode_write st3 d3
                    { root with direct := updF root.direct 0 new_dir_block,
                                size := root.size + 32 } with
                | none => (st3, d3, .error Errno.EIO)
                | some (st4, d4) => (st4, log_checkpoint st4 d4, .ok 0)

/-- lfs_create from lfs.c. -/
def lfs_create (st : LfsState) (d : Disk) (path : List Nat) :
    LfsState × Disk × Except Errno Nat :=
  if path.headD 0 ≠ 47 ∨ 47 ∈ path.drop 1 then (st, d, .error .EPERM)
  else
    let name := path.drop 1
    if MAX_NAME_LEN ≤ name.length then (st, d, .error .ENAMETOOLONG)
    else if ¬ (path_to_inode st d path = .error .ENOENT) then (st, d, .error .EEXIST)
    else
      match inode_alloc st with
      | none => (st, d, .error .ENOSPC)
      | some ino =>
          if gc_should_run st then
            match gc_collect st d with
            | (st1, d1, _) => lfs_create_rest st1 d1 ino name
          else lfs_create_rest st d ino name

/-- lfs_init from lfs.c: read the superblock, check the magic, read the
inode map, restore the tail.  none corresponds to the C NULL return. -/
def lfs_init (d : Disk) : Option LfsState :=
  let sb := decodeSb (d 0)
  if sb.magic ≠ LFS_MAGIC then none
  else some { sb := sb,
              inode_map := fun i => readU32 (d INODE_MAP_BLOCK) (4 * i),
              log_tail := sb.log_tail }

/-! ## The formatter (mkfs_lfs.c) -/

/-- The name bytes of hello.txt. -/
def helloName : List Nat := [104, 101, 108, 108, 111, 46, 116, 120, 116]

/-- The bytes of the seed message written to block 4. -/
def helloMsg : List Nat := [72, 101, 108, 108, 111, 32, 102, 114, 111, 109, 32, 76, 70, 83, 33, 10]

/-- The superblock written by mkfs_lfs.c: log tail starts at block 6. -/
def mkfsSb : Superblock where
  magic := LFS_MAGIC
  block_size := BLOCK_SIZE
  total_blocks := TOTAL_BLOCKS
  inode_map_block := INODE_MAP_BLOCK
  log_start := LOG_START_BLOCK
  log_tail := 6
  pad := fun _ => 0

/-- The root inode written by mkfs_lfs.c to block 2. -/
def mkfsRootInode : Inode where
  inode_no := 0
  type := 2
  size := 96
  nlinks := 2
  direct := fun j => if j = 0 then 3 else 0
  pad := fun _ => 0

/-- The hello.txt inode written by mkfs_lfs.c to block 5. -/
def mkfsHelloInode : Inode where
  inode_no := 1
  type := 1
  size := 16
  nlinks := 1
  direct := fun j => if j = 0 then 4 else 0
  pad := fun _ => 0

/-- The root directory data written by mkfs_lfs.c to block 3: dot and dotdot
(inode number 0) and hello.txt (inode 1). -/
def mkfsRootDirBlock : Block :=
  setDirent (setDirent (setDirent zeroBlock 0 0 [46]) 1 0 [46, 46]) 2 1 helloName

/-- The inode map written by mkfs_lfs.c to block 1. -/
def mkfsImap : Nat → Nat := updF (updF (fun _ => 0) 0 2) 1 5

/-- The freshly formatted 1024-block image of mkfs_lfs.c. -/
def mkfsDisk : Disk := fun b =>
  if b = 0 then encodeSb mkfsSb
  else if b = 1 then encodeImap mkfsImap
  else if b = 2 then encodeInode mkfsRootInode
  else if b = 3 then mkfsRootDirBlock
  else if b = 4 then (fun i => helloMsg.getD i 0)
  else if b = 5 then encodeInode mkfsHelloInode
  else zeroBlock

/-- The in-memory state right after mounting the freshly formatted image;
lfs_init mkfsDisk computes exactly this record. -/
def st0 : LfsState where
  sb := decodeSb (mkfsDisk 0)
  inode_map := fun i => readU32 (mkfsDisk INODE_MAP_BLOCK) (4 * i)
  log_tail := (decodeSb (mkfsDisk 0)).log_tail

/-! ## Characterization of the log writer -/

theorem log_append_ex_none_iff (st : LfsState) (d : Disk) (buf : Block) (a b : Nat) :
    log_append_ex st d buf a b = none ↔ st.sb.total_blocks ≤ st.log_tail := by
  unfold log_append_ex
  by_cases hg : st.sb.total_blocks ≤ st.log_tail
  · simp [hg]
  · simp [hg]

theorem log_append_ex_some_parts (st : LfsState) (d : Disk) (buf : Block) (a b : Nat)
    (st1 : LfsState) (d1 : Disk) (r : Nat)
    (h : log_append_ex st d buf a b = some (st1, d1, r)) :
    r = st.log_tail ∧
    st1.log_tail = st.log_tail + 1 ∧
    st1.sb = { st.sb with log_tail := st.log_tail + 1 } ∧
    st1.inode_map = st.inode_map ∧
    d1 st.log_tail = buf ∧
    (∀ x, x ≠ st.log_tail → x ≠ get_summary_block st.log_tail → d1 x = d x) ∧
    (st.log_tail - get_summary_block st.log_tail ≠ 0 →
      d1 (get_summary_block st.log_tail) =
        writeU32 (writeU32 (d (get_summary_block st.log_tail))
            (8 * (st.log_tail - get_summary_block st.log_tail)) a)
          (8 * (st.log_tail - get_summary_block st.log_tail) + 4) b) := by
  have hsum : get_summary_block st.log_tail ≤ st.log_tail := by
    unfold get_summary_block BLOCKS_PER_SEGMENT
    omega
  unfold log_append_ex at h
  by_cases hg : st.sb.total_blocks ≤ st.log_tail
  · rw [if_pos hg] at h
    exact absurd h (by simp)
  · rw [if_neg hg] at h
    simp only [Option.some.injEq, Prod.mk.injEq] at h
    obtain ⟨hst, hd, hr⟩ := h
    subst hst hd hr
    refine ⟨rfl, rfl, rfl, rfl, ?_, ?_, ?_⟩
    · by_cases hoff : st.log_tail - get_summary_block st.log_tail ≠ 0
      · rw [if_pos hoff, diskWrite_ne _ _ _ _ (by omega), diskWrite_self]
      · rw [if_neg hoff, diskWrite_self]
    · intro x hx1 hx2
      by_cases hoff : st.log_tail - get_summary_block st.log_tail ≠ 0
      · rw [if_pos hoff, diskWrite_ne _ _ _ _ hx2, diskWrite_ne _ _ _ _ hx1]
      · rw [if_neg hoff, diskWrite_ne _ _ _ _ hx1]
    · intro hoff
      rw [if_pos hoff, diskWrite_self, diskWrite_ne _ _ _ _ (by omega)]

theorem log_append_ex_isSome (st : LfsState) (d : Disk) (buf : Block) (a b : Nat)
    (h : st.log_tail < st.sb.total_blocks) :
    (log_append_ex st d buf a b).isSome = true := by
  unfold log_append_ex
  rw [if_neg (by omega)]
  rfl

/-- Claim C3: log_append on a full block fails with no-space exactly when the
tail equals total blocks (given the documented invariant tail ≤ total); on
success it writes the buffer to the block numbered by the pre-call tail,
advances the in-memory tail by exactly one, mirrors the new tail into the
in-memory superblock copy, and returns the block number that was written. -/
theorem c3_log_append_contract (st : LfsState) (d : Disk) (buf : Block)
    (hinv : st.log_tail ≤ st.sb.total_blocks) :
    ((log_append st d buf = none ↔ st.log_tail = st.sb.total_blocks) ∧
     ∀ st1 d1 r, log_append st d buf = some (st1, d1, r) →
       r = st.log_tail ∧
       st1.log_tail = st.log_tail + 1 ∧
       st1.sb.log_tail = st.log_tail + 1 ∧
       st1.sb = { st.sb with log_tail := st.log_tail + 1 } ∧
       st1.inode_map = st.inode_map ∧
       d1 st.log_tail = buf) := by
  constructor
  · rw [log_append, log_append_ex_none_iff]
    omega
  · intro st1 d1 r h
    obtain ⟨h1, h2, h3, h4, h5, _⟩ := log_append_ex_some_parts st d buf 0 0 st1 d1 r h
    exact ⟨h1, h2, by rw [h3], h3, h4, h5⟩

/-- Witness for C3 at the freshly mounted image (tail 6, 1024 blocks). -/
theorem c3_log_append_contract_witness :
    ((log_append st0 mkfsDisk zeroBlock = none ↔ st0.log_tail = st0.sb.total_blocks) ∧
     ∀ st1 d1 r, log_append st0 mkfsDisk zeroBlock = some (st1, d1, r) →
       r = st0.log_tail ∧
       st1.log_tail = st0.log_tail + 1 ∧
       st1.sb.log_tail = st0.log_tail + 1 ∧
       st1.sb = { st0.sb with log_tail := st0.log_tail + 1 } ∧
       st1.inode_map = st0.inode_map ∧
       d1 st0.log_tail = zeroBlock) :=
  c3_log_append_contract st0 mkfsDisk zeroBlock (by decide)

/-- Claim C10: whenever the append target block b has nonzero position within
its segment (b mod 32 ≠ 0), log_append_ex rewrites the block at b / 32 * 32
as a segment summary: it stores the (inode_no, block_idx) pair into the
8-byte entry at offset 8·(b mod 32) and leaves every other byte of that block
as read; for b < 32 that summary block is block 0, the superblock, which lies
outside the log region. -/
theorem c10_summary_write (st : LfsState) (d : Disk) (buf : Block) (ino idx : Nat)
    (hoff : st.log_tail % 32 ≠ 0) (hlt : st.log_tail < st.sb.total_blocks) :
    (log_append_ex st d buf ino idx).isSome = true ∧
    ∀ st1 d1 r, log_append_ex st d buf ino idx = some (st1, d1, r) →
      r = st.log_tail ∧
      readU32 (d1 (get_summary_block st.log_tail)) (8 * (st.log_tail % 32))
        = ino % 4294967296 ∧
      readU32 (d1 (get_summary_block st.log_tail)) (8 * (st.log_tail % 32) + 4)
        = idx % 4294967296 ∧
      (∀ j, j < 8 * (st.log_tail % 32) ∨ 8 * (st.log_tail % 32) + 8 ≤ j →
        d1 (get_summary_block st.log_tail) j = d (get_summary_block st.log_tail) j) ∧
      d1 st.log_tail = buf ∧
      (∀ x, x ≠ st.log_tail → x ≠ get_summary_block st.log_tail → d1 x = d x) ∧
      (st.log_tail < 32 → get_summary_block st.log_tail = 0) := by
  have hrem : st.log_tail - get_summary_block st.log_tail = st.log_tail % 32 := by
    unfold get_summary_block BLOCKS_PER_SEGMENT
    omega
  refine ⟨log_append_ex_isSome st d buf ino idx hlt, ?_⟩
  intro st1 d1 r h
  obtain ⟨h1, _, _, _, h5, h6, h7⟩ := log_append_ex_some_parts st d buf ino idx st1 d1 r h
  have hsum := h7 (by omega)
  rw [hrem] at hsum
  refine ⟨h1, ?_, ?_, ?_, h5, h6, ?_⟩
  · rw [hsum, readU32_writeU32_disjoint _ _ _ _ (by omega), readU32_writeU32_same]
  · rw [hsum, readU32_writeU32_same]
  · intro j hj
    rw [hsum, writeU32_frame _ _ _ _ (by omega), writeU32_frame _ _ _ _ (by omega)]
  · intro hlt32
    unfold get_summary_block BLOCKS_PER_SEGMENT
    omega

/-- Witness for C10 at the formatter's initial tail position 6: the summary
write lands in block 0, the superblock. -/
theorem c10_summary_write_witness :
    ((log_append_ex st0 mkfsDisk zeroBlock 7 3).isSome = true ∧
     ∀ st1 d1 r, log_append_ex st0 mkfsDisk zeroBlock 7 3 = some (st1, d1, r) →
       r = st0.log_tail ∧
       readU32 (d1 (get_summary_block st0.log_tail)) (8 * (st0.log_tail % 32))
         = 7 % 4294967296 ∧
       readU32 (d1 (get_summary_block st0.log_tail)) (8 * (st0.log_tail % 32) + 4)
         = 3 % 4294967296 ∧
       (∀ j, j < 8 * (st0.log_tail % 32) ∨ 8 * (st0.log_tail % 32) + 8 ≤ j →
         d1 (get_summary_block st0.log_tail) j = mkfsDisk (get_summary_block st0.log_tail) j) ∧
       d1 st0.log_tail = zeroBlock ∧
       (∀ x, x ≠ st0.log_tail → x ≠ get_summary_block st0.log_tail → d1 x = mkfsDisk x) ∧
       (st0.log_tail < 32 → get_summary_block st0.log_tail = 0)) :=
  c10_summary_write st0 mkfsDisk zeroBlock 7 3 (by decide) (by decide)

/-! ## GC: the no-op path -/

theorem is_block_live_irrel (st : LfsState) (d : Disk) (b x y : Nat) :
    is_block_live st d b x y = is_block_live st d b 0 0 := rfl

theorem seg_dead_count_all_live (st : LfsState) (d : Disk) (sum : Block) (seg_start : Nat)
    (h10 : LOG_START_BLOCK ≤ seg_start)
    (hlive : ∀ b, b < st.log_tail → LOG_START_BLOCK ≤ b → is_block_live st d b 0 0 = true) :
    ∀ l dead, seg_dead_count st d sum seg_start l dead = dead := by
  intro l
  induction l with
  | nil => intro dead; rfl
  | cons i rest ih =>
      intro dead
      unfold seg_dead_count
      by_cases hb : st.log_tail ≤ seg_start + i
      · rw [if_pos hb]
      · rw [if_neg hb]
        have hl : is_block_live st d (seg_start + i)
            (readU32 sum (8 * i)) (readU32 sum (8 * i + 4)) = true := by
          rw [is_block_live_irrel]
          exact hlive (seg_start + i) (by omega) (by omega)
        simp only [hl, if_true]
        exact ih dead

theorem gc_scan_all_live (st : LfsState) (d : Disk)
    (hlive : ∀ b, b < st.log_tail → LOG_START_BLOCK ≤ b → is_block_live st d b 0 0 = true) :
    ∀ (l : List Nat) (bs bd : Int), bd ≤ 0 → (bd < 0 → bs < 0) →
      (gc_scan st d l (bs, bd)).2 ≤ 0 ∧
      ((gc_scan st d l (bs, bd)).2 < 0 → (gc_scan st d l (bs, bd)).1 < 0) := by
  intro l
  induction l with
  | nil => intro bs bd h1 h2; exact ⟨h1, h2⟩
  | cons seg rest ih =>
      intro bs bd h1 h2
      unfold gc_scan
      by_cases hc1 : seg * BLOCKS_PER_SEGMENT < LOG_START_BLOCK
      · rw [if_pos hc1]; exact ih bs bd h1 h2
      · rw [if_neg hc1]
        by_cases hc2 : st.log_tail ≤ seg * BLOCKS_PER_SEGMENT
        · rw [if_pos hc2]; exact ih bs bd h1 h2
        · rw [if_neg hc2]
          have hdead : seg_dead_count st d (d (seg * BLOCKS_PER_SEGMENT))
              (seg * BLOCKS_PER_SEGMENT) (List.range' 1 31) 0 = 0 :=
            seg_dead_count_all_live st d _ _ (by omega) hlive _ 0
          simp only [hdead, Nat.cast_zero]
          by_cases hc3 : bd < (0 : Int)
          · rw [if_pos hc3]
            exact ih seg 0 le_rfl (by omega)
          · rw [if_neg hc3]
            exact ih bs bd h1 h2

/-- Claim C8: when no log block in [LOG_START_BLOCK, tail) is dead,
gc_collect returns success and leaves the state and the disk completely
unchanged: no blocks are moved or rewritten. -/
theorem c8_gc_noop (st : LfsState) (d : Disk)
    (hlive : ∀ b, b < st.log_tail → LOG_START_BLOCK ≤ b → is_block_live st d b 0 0 = true) :
    gc_collect st d = (st, d, true) := by
  unfold gc_collect
  have hp := gc_scan_all_live st d hlive (List.range SEGMENT_COUNT) (-1) (-1)
    (by omega) (fun _ => by omega)
  rcases hsc : gc_scan st d (List.range SEGMENT_COUNT) (-1, -1) with ⟨bs, bd⟩
  rw [hsc] at hp
  simp only at hp ⊢
  rw [if_pos ?_]
  rcases hp with ⟨hp1, hp2⟩
  by_cases hbd : bd < 0
  · exact Or.inl (hp2 hbd)
  · exact Or.inr (by omega)

/-- A state for the C8 witness: tail 43, every log block in [10, 43) live
because an inode-map entry points at it. -/
def c8St : LfsState where
  sb := { mkfsSb with log_tail := 43 }
  inode_map := fun i => if i < 33 then i + 10 else 0
  log_tail := 43

/-- Witness for C8: on a state whose log blocks 10..42 are all live, GC is a
no-op success. -/
theorem c8_gc_noop_witness :
    gc_collect c8St (fun _ => zeroBlock) = (c8St, (fun _ => zeroBlock), true) :=
  c8_gc_noop c8St (fun _ => zeroBlock) (by decide)

/-! ## Characterization of inode_write, and the GC tail bound -/

theorem inode_write_some_parts (st : LfsState) (d : Disk) (n : Inode)
    (st1 : LfsState) (d1 : Disk) (h : inode_write st d n = some (st1, d1)) :
    st1.log_tail = st.log_tail + 1 ∧
    st1.sb = { st.sb with log_tail := st.log_tail + 1 } ∧
    st1.inode_map = updF st.inode_map n.inode_no st.log_tail ∧
    st.log_tail < st.sb.total_blocks ∧
    n.inode_no < INODE_MAP_SIZE ∧
    d1 st.log_tail = encodeInode n ∧
    (∀ x, x ≠ st.log_tail → x ≠ get_summary_block st.log_tail → d1 x = d x) := by
  unfold inode_write at h
  by_cases hi : INODE_MAP_SIZE ≤ n.inode_no
  · rw [if_pos hi] at h
    exact absurd h (by simp)
  · rw [if_neg hi] at h
    rcases happ : log_append st d (encodeInode n) with _ | ⟨st2, d2, blk⟩
    · rw [happ] at h
      exact absurd h (by simp)
    · rw [happ] at h
      simp only [Option.some.injEq, Prod.mk.injEq] at h
      obtain ⟨hst, hd⟩ := h
      subst hst hd
      obtain ⟨h1, h2, h3, h4, h5, h6, _⟩ :=
        log_append_ex_some_parts st d (encodeInode n) 0 0 st2 d2 blk happ
      have hlt : st.log_tail < st.sb.total_blocks := by
        by_contra hc
        rw [show log_append st d (encodeInode n) = none from
          (log_append_ex_none_iff st d (encodeInode n) 0 0).2 (by omega)] at happ
        exact absurd happ (by simp)
      subst h1
      exact ⟨h2, h3, by rw [h4], hlt, by omega, h5, h6⟩

theorem inode_write_isSome (st : LfsState) (d : Disk) (n : Inode)
    (hi : n.inode_no < INODE_MAP_SIZE) (ht : st.log_tail < st.sb.total_blocks) :
    (inode_write st d n).isSome = true := by
  unfold inode_write log_append log_append_ex
  rw [if_neg (by omega), if_neg (by omega)]
  rfl

theorem gc_copy_tail_le (sum : Block) (seg_start : Nat) :
    ∀ (l : List Nat) (st : LfsState) (d : Disk),
      (gc_copy sum seg_start l st d).1.log_tail ≤ st.log_tail + 2 * l.length := by
  intro l
  induction l with
  | nil => intro st d; exact Nat.le_add_right _ _
  | cons i rest ih =>
      intro st d
      unfold gc_copy
      by_cases hb : st.log_tail ≤ seg_start + i
      · rw [if_pos hb]; exact Nat.le_add_right _ _
      · rw [if_neg hb]
        by_cases hl : ¬ is_block_live st d (seg_start + i)
            (readU32 sum (8 * i)) (readU32 sum (8 * i + 4)) = true
        · rw [if_pos hl]
          have := ih st d
          simp only [List.length_cons]
          omega
        · rw [if_neg hl]
          rcases happ : log_append_ex st d (d (seg_start + i))
              (readU32 sum (8 * i)) (readU32 sum (8 * i + 4)) with _ | ⟨st1, d1, nb⟩
          · try dsimp only
            simp only [List.length_cons]
            omega
          · try dsimp only
            have htail1 : st1.log_tail = st.log_tail + 1 :=
              (log_append_ex_some_parts st d _ _ _ st1 d1 nb happ).2.1
            by_cases hmap : st1.inode_map (readU32 sum (8 * i)) = seg_start + i
            · rw [if_pos hmap]
              have := ih { st1 with inode_map := updF st1.inode_map (readU32 sum (8 * i)) nb } d1
              simp only [List.length_cons] at *
              omega
            · rw [if_neg hmap]
              rcases hread : inode_read st1 d1 (readU32 sum (8 * i)) with _ | n
              · try dsimp only
                have := ih st1 d1
                simp only [List.length_cons]
                omega
              · try dsimp only
                rcases hwrite : inode_write st1 d1
                    (if readU32 sum (8 * i + 4) < MAX_DIRECT_PTRS
                     then { n with direct := updF n.direct (readU32 sum (8 * i + 4)) nb }
                     else n) with _ | ⟨st2, d2⟩
                · try dsimp only
                  have := ih st1 d1
                  simp only [List.length_cons]
                  omega
                · try dsimp only
                  have htail2 : st2.log_tail = st1.log_tail + 1 :=
                    (inode_write_some_parts st1 d1 _ st2 d2 hwrite).1
                  have := ih st2 d2
                  simp only [List.length_cons] at *
                  omega

theorem gc_scan_best_in_range (st : LfsState) (d : Disk) :
    ∀ (l : List Nat) (bs bd : Int), (∀ x ∈ l, x ≤ 31) →
      (bs < 0 ∨ (LOG_START_BLOCK ≤ bs.toNat * BLOCKS_PER_SEGMENT ∧
                 bs.toNat * BLOCKS_PER_SEGMENT < st.log_tail ∧ bs.toNat ≤ 31)) →
      ((gc_scan st d l (bs, bd)).1 < 0 ∨
       (LOG_START_BLOCK ≤ (gc_scan st d l (bs, bd)).1.toNat * BLOCKS_PER_SEGMENT ∧
        (gc_scan st d l (bs, bd)).1.toNat * BLOCKS_PER_SEGMENT < st.log_tail ∧
        (gc_scan st d l (bs, bd)).1.toNat ≤ 31)) := by
  intro l
  induction l with
  | nil => intro bs bd _ h; exact h
  | cons seg rest ih =>
      intro bs bd hmem h
      unfold gc_scan
      by_cases hc1 : seg * BLOCKS_PER_SEGMENT < LOG_START_BLOCK
      · rw [if_pos hc1]
        exact ih bs bd (fun x hx => hmem x (List.mem_cons_of_mem _ hx)) h
      · rw [if_neg hc1]
        by_cases hc2 : st.log_tail ≤ seg * BLOCKS_PER_SEGMENT
        · rw [if_pos hc2]
          exact ih bs bd (fun x hx => hmem x (List.mem_cons_of_mem _ hx)) h
        · rw [if_neg hc2]
          by_cases hc3 : bd < (seg_dead_count st d (d (seg * BLOCKS_PER_SEGMENT))
              (seg * BLOCKS_PER_SEGMENT) (List.range' 1 31) 0 : Int)
          · rw [if_pos hc3]
            refine ih seg _ (fun x hx => hmem x (List.mem_cons_of_mem _ hx)) (Or.inr ?_)
            have hseg : seg ≤ 31 := hmem seg (List.mem_cons_self _ _)
            simp only [Int.toNat_ofNat]
            omega
          · rw [if_neg hc3]
            exact ih bs bd (fun x hx => hmem x (List.mem_cons_of_mem _ hx)) h

/-- Claim C1 (amended): whenever gc_collect returns success, the new log tail
is at most the old tail plus 2·(S−1) = 62: each of the at most 31 relocated
live blocks appends the block itself and possibly a rewritten inode copy, and
the tail is rewound (to the cleaned segment's start, below the old tail) only
when the cleaned segment is at the tail end of the log. -/
theorem c1_gc_tail_bound (st : LfsState) (d : Disk) (st1 : LfsState) (d1 : Disk)
    (h : gc_collect st d = (st1, d1, true)) :
    st1.log_tail ≤ st.log_tail + 62 := by
  unfold gc_collect at h
  rcases hsc : gc_scan st d (List.range SEGMENT_COUNT) (-1, -1) with ⟨bs, bd⟩
  rw [hsc] at h
  simp only at h
  by_cases hc : bs < 0 ∨ bd = 0
  · rw [if_pos hc] at h
    have hst : st1 = st := by
      have hc1 := congrArg Prod.fst h
      simpa using hc1.symm
    rw [hst]
    omega
  · rw [if_neg hc] at h
    have hbs : ¬ bs < 0 := fun hlt => hc (Or.inl hlt)
    have hbest := gc_scan_best_in_range st d (List.range SEGMENT_COUNT) (-1) (-1)
      (fun x hx => by
        have := List.mem_range.1 hx
        unfold SEGMENT_COUNT at this
        omega)
      (Or.inl (by omega))
    rw [hsc] at hbest
    simp only at hbest
    have hseg : LOG_START_BLOCK ≤ bs.toNat * BLOCKS_PER_SEGMENT ∧
        bs.toNat * BLOCKS_PER_SEGMENT < st.log_tail ∧ bs.toNat ≤ 31 := by
      rcases hbest with hlt | hg
      · exact absurd hlt hbs
      · exact hg
    rcases hcopy : gc_copy (d (bs.toNat * BLOCKS_PER_SEGMENT))
        (bs.toNat * BLOCKS_PER_SEGMENT) (List.range' 1 31) st d with ⟨stc, dc, ok⟩
    rw [hcopy] at h
    have hcopyle := gc_copy_tail_le (d (bs.toNat * BLOCKS_PER_SEGMENT))
      (bs.toNat * BLOCKS_PER_SEGMENT) (List.range' 1 31) st d
    rw [hcopy] at hcopyle
    simp only [List.length_range'] at hcopyle
    cases ok with
    | false =>
        simp only [] at h
        have := congrArg (fun p => p.2.2) h
        simp at this
    | true =>
        simp only [] at h
        by_cases hrew : stc.log_tail ≤ bs.toNat * BLOCKS_PER_SEGMENT + BLOCKS_PER_SEGMENT
        · rw [if_pos hrew] at h
          have hst1 : st1.log_tail = bs.toNat * BLOCKS_PER_SEGMENT := by
            have := congrArg (fun p => p.1.log_tail) h
            simpa using this.symm
          omega
        · rw [if_neg hrew] at h
          have hst1 : st1 = stc := by
            have := congrArg Prod.fst h
            simpa using this.symm
          subst hst1
          omega

/-- A state refuting C1 as stated: the log tail is 65, segment 1 holds the
live inode block 33 (inode 1) and its live data block 34 among 29 dead
blocks, so GC cleans segment 1, appends the two live blocks at 65 and 66,
and cannot rewind because the cleaned segment no longer reaches the tail. -/
def c1Inode : Inode where
  inode_no := 1
  type := 1
  size := 4096
  nlinks := 1
  direct := fun j => if j = 0 then 34 else 0
  pad := fun _ => 0

def c1St : LfsState where
  sb := { mkfsSb with log_tail := 65 }
  inode_map := fun i => if i = 1 then 33 else 0
  log_tail := 65

def c1Disk : Disk := fun b => if b = 33 then encodeInode c1Inode else zeroBlock

set_option maxRecDepth 40000 in
/-- Counterexample to C1 as stated: gc_collect returns success and the log
tail has grown from 65 to 67. -/
theorem c1_tail_grows_counterexample :
    (gc_collect c1St c1Disk).2.2 = true ∧
    c1St.log_tail = 65 ∧
    (gc_collect c1St c1Disk).1.log_tail = 67 := by
  refine ⟨?_, rfl, ?_⟩ <;> decide

/-- Witness for the amended C1 bound at the freshly mounted image, where GC
is a no-op success. -/
theorem c1_gc_tail_bound_witness :
    (gc_collect st0 mkfsDisk).1.log_tail ≤ st0.log_tail + 62 :=
  c1_gc_tail_bound st0 mkfsDisk (gc_collect st0 mkfsDisk).1 (gc_collect st0 mkfsDisk).2.1
    (by
      have hf : (gc_collect st0 mkfsDisk).2.2 = true := by decide
      calc gc_collect st0 mkfsDisk
          = ((gc_collect st0 mkfsDisk).1, (gc_collect st0 mkfsDisk).2.1,
             (gc_collect st0 mkfsDisk).2.2) := rfl
        _ = ((gc_collect st0 mkfsDisk).1, (gc_collect st0 mkfsDisk).2.1, true) := by rw [hf])

/-! ## The tail invariant over reachable states -/

/-- The state invariant maintained by every operation: the tail is in
[6, 1024], the in-memory superblock mirrors it, and the superblock's
identity fields are intact. -/
def TInv (st : LfsState) : Prop :=
  6 ≤ st.log_tail ∧ st.log_tail ≤ 1024 ∧ st.sb.log_tail = st.log_tail ∧
  st.sb.total_blocks = 1024 ∧ st.sb.magic = LFS_MAGIC

theorem log_append_ex_some_lt (st : LfsState) (d : Disk) (buf : Block) (a b : Nat)
    (st1 : LfsState) (d1 : Disk) (r : Nat)
    (h : log_append_ex st d buf a b = some (st1, d1, r)) :
    st.log_tail < st.sb.total_blocks := by
  by_contra hc
  rw [(log_append_ex_none_iff st d buf a b).2 (by omega)] at h
  exact absurd h (by simp)

theorem log_append_ex_TInv (st : LfsState) (d : Disk) (buf : Block) (a b : Nat)
    (st1 : LfsState) (d1 : Disk) (r : Nat)
    (h : log_append_ex st d buf a b = some (st1, d1, r)) (hI : TInv st) : TInv st1 := by
  obtain ⟨_, h2, h3, _, _, _, _⟩ := log_append_ex_some_parts st d buf a b st1 d1 r h
  have hlt := log_append_ex_some_lt st d buf a b st1 d1 r h
  obtain ⟨i1, i2, i3, i4, i5⟩ := hI
  refine ⟨by omega, by omega, by rw [h2, h3], by rw [h3]; exact i4, by rw [h3]; exact i5⟩

theorem inode_write_TInv (st : LfsState) (d : Disk) (n : Inode)
    (st1 : LfsState) (d1 : Disk)
    (h : inode_write st d n = some (st1, d1)) (hI : TInv st) : TInv st1 := by
  obtain ⟨h1, h2, _, hlt, _, _, _⟩ := inode_write_some_parts st d n st1 d1 h
  obtain ⟨i1, i2, i3, i4, i5⟩ := hI
  refine ⟨by omega, by omega, by rw [h1, h2], by rw [h2]; exact i4, by rw [h2]; exact i5⟩

theorem gc_copy_TInv (sum : Block) (seg_start : Nat) :
    ∀ (l : List Nat) (st : LfsState) (d : Disk), TInv st →
      TInv (gc_copy sum seg_start l st d).1 := by
  intro l
  induction l with
  | nil => intro st d hI; exact hI
  | cons i rest ih =>
      intro st d hI
      unfold gc_copy
      by_cases hb : st.log_tail ≤ seg_start + i
      · rw [if_pos hb]; exact hI
      · rw [if_neg hb]
        by_cases hl : ¬ is_block_live st d (seg_start + i)
            (readU32 sum (8 * i)) (readU32 sum (8 * i + 4)) = true
        · rw [if_pos hl]; exact ih st d hI
        · rw [if_neg hl]
          rcases happ : log_append_ex st d (d (seg_start + i))
              (readU32 sum (8 * i)) (readU32 sum (8 * i + 4)) with _ | ⟨st1, d1, nb⟩
          · try dsimp only; exact hI
          · try dsimp only
            have hI1 : TInv st1 := log_append_ex_TInv st d _ _ _ st1 d1 nb happ hI
            by_cases hmap : st1.inode_map (readU32 sum (8 * i)) = seg_start + i
            · rw [if_pos hmap]
              exact ih _ d1 ⟨hI1.1, hI1.2.1, hI1.2.2.1, hI1.2.2.2.1, hI1.2.2.2.2⟩
            · rw [if_neg hmap]
              rcases hread : inode_read st1 d1 (readU32 sum (8 * i)) with _ | n
              · try dsimp only; exact ih st1 d1 hI1
              · try dsimp only
                rcases hwrite : inode_write st1 d1
                    (if readU32 sum (8 * i + 4) < MAX_DIRECT_PTRS
                     then { n with direct := updF n.direct (readU32 sum (8 * i + 4)) nb }
                     else n) with _ | ⟨st2, d2⟩
                · try dsimp only; exact ih st1 d1 hI1
                · try dsimp only
                  exact ih st2 d2 (inode_write_TInv st1 d1 _ st2 d2 hwrite hI1)

theorem gc_collect_TInv (st : LfsState) (d : Disk) (hI : TInv st) :
    TInv (gc_collect st d).1 := by
  unfold gc_collect
  rcases hsc : gc_scan st d (List.range SEGMENT_COUNT) (-1, -1) with ⟨bs, bd⟩
  simp only
  by_cases hc : bs < 0 ∨ bd = 0
  · rw [if_pos hc]; exact hI
  · rw [if_neg hc]
    have hbs : ¬ bs < 0 := fun hlt => hc (Or.inl hlt)
    have hbest := gc_scan_best_in_range st d (List.range SEGMENT_COUNT) (-1) (-1)
      (fun x hx => by
        have := List.mem_range.1 hx
        unfold SEGMENT_COUNT at this
        omega)
      (Or.inl (by omega))
    rw [hsc] at hbest
    simp only at hbest
    have hseg : LOG_START_BLOCK ≤ bs.toNat * BLOCKS_PER_SEGMENT ∧
        bs.toNat * BLOCKS_PER_SEGMENT < st.log_tail ∧ bs.toNat ≤ 31 := by
      rcases hbest with hlt | hg
      · exact absurd hlt hbs
      · exact hg
    rcases hcopy : gc_copy (d (bs.toNat * BLOCKS_PER_SEGMENT))
        (bs.toNat * BLOCKS_PER_SEGMENT) (List.range' 1 31) st d with ⟨stc, dc, ok⟩
    have hIc := gc_copy_TInv (d (bs.toNat * BLOCKS_PER_SEGMENT))
      (bs.toNat * BLOCKS_PER_SEGMENT) (List.range' 1 31) st d hI
    rw [hcopy] at hIc
    cases ok with
    | false => exact hIc
    | true =>
        try dsimp only
        by_cases hrew : stc.log_tail ≤ bs.toNat * BLOCKS_PER_SEGMENT + BLOCKS_PER_SEGMENT
        · rw [if_pos hrew]
          obtain ⟨j1, j2, j3, j4, j5⟩ := hIc
          refine ⟨?_, ?_, rfl, j4, j5⟩
          · show 6 ≤ bs.toNat * BLOCKS_PER_SEGMENT
            unfold LOG_START_BLOCK BLOCKS_PER_SEGMENT at hseg
            unfold BLOCKS_PER_SEGMENT
            omega
          · show bs.toNat * BLOCKS_PER_SEGMENT ≤ 1024
            have h31 := hseg.2.2
            unfold BLOCKS_PER_SEGMENT at h31 ⊢
            omega
        · rw [if_neg hrew]
          exact hIc

theorem write_go_TInv (ino : Nat) (buf : Nat → Nat) (offset size : Nat) :
    ∀ (l : List Nat) (n : Inode) (st : LfsState) (d : Disk), TInv st →
      TInv (write_go ino buf offset size l n st d).1.2.1 := by
  intro l
  induction l with
  | nil => intro n st d hI; exact hI
  | cons blk rest ih =>
      intro n st d hI
      unfold write_go
      by_cases hgc : gc_should_run st = true
      · rw [if_pos hgc]
        rcases hg : gc_collect st d with ⟨st1, d1, flag⟩
        have hI1 : TInv st1 := by
          have := gc_collect_TInv st d hI
          rw [hg] at this
          exact this
        try dsimp only
        rcases hread : inode_read st1 d1 ino with _ | n1
        · try dsimp only; exact hI1
        · try dsimp only
          rcases happ : log_append_ex st1 d1 _ ino blk with _ | ⟨st2, d2, nb⟩
          · try dsimp only; exact hI1
          · try dsimp only
            exact ih _ st2 d2 (log_append_ex_TInv st1 d1 _ _ _ st2 d2 nb happ hI1)
      · rw [if_neg hgc]
        rcases happ : log_append_ex st d _ ino blk with _ | ⟨st2, d2, nb⟩
        · try dsimp only; exact hI
        · try dsimp only
          exact ih _ st2 d2 (log_append_ex_TInv st d _ _ _ st2 d2 nb happ hI)

theorem lfs_write_TInv (st : LfsState) (d : Disk) (path : List Nat)
    (offset size : Nat) (buf : Nat → Nat) (hI : TInv st) :
    TInv (lfs_write st d path offset size buf).1 := by
  unfold lfs_write
  rcases hres : path_to_inode st d path with e | ino
  · exact hI
  · try dsimp only
    rcases hread : inode_read st d ino with _ | n
    · exact hI
    · try dsimp only
      by_cases hty : n.type ≠ 1
      · rw [if_pos hty]; exact hI
      · rw [if_neg hty]
        by_cases hoff : MAX_DIRECT_PTRS * BLOCK_SIZE ≤ offset
        · rw [if_pos hoff]; exact hI
        · rw [if_neg hoff]
          try dsimp only
          rcases hw : write_go ino buf offset
              (if MAX_DIRECT_PTRS * BLOCK_SIZE < offset + size
               then MAX_DIRECT_PTRS * BLOCK_SIZE - offset else size)
              (List.range' (offset / BLOCK_SIZE)
                ((offset + (if MAX_DIRECT_PTRS * BLOCK_SIZE < offset + size
                            then MAX_DIRECT_PTRS * BLOCK_SIZE - offset else size) - 1)
                    / BLOCK_SIZE + 1 - offset / BLOCK_SIZE))
              n st d with ⟨⟨n1, st1, d1⟩, err⟩
          have hI1 : TInv st1 := by
            have := write_go_TInv ino buf offset
              (if MAX_DIRECT_PTRS * BLOCK_SIZE < offset + size
               then MAX_DIRECT_PTRS * BLOCK_SIZE - offset else size)
              (List.range' (offset / BLOCK_SIZE)
                ((offset + (if MAX_DIRECT_PTRS * BLOCK_SIZE < offset + size
                            then MAX_DIRECT_PTRS * BLOCK_SIZE - offset else size) - 1)
                    / BLOCK_SIZE + 1 - offset / BLOCK_SIZE))
              n st d hI
            rw [hw] at this
            exact this
          rcases err with _ | e
          · try dsimp only
            rcases hiw : inode_write st1 d1
                (if n1.size < offset + (if MAX_DIRECT_PTRS * BLOCK_SIZE < offset + size
                   then MAX_DIRECT_PTRS * BLOCK_SIZE - offset else size)
                 then { n1 with size := offset + (if MAX_DIRECT_PTRS * BLOCK_SIZE < offset + size
                   then MAX_DIRECT_PTRS * BLOCK_SIZE - offset else size) }
                 else n1) with _ | ⟨st2, d2⟩
            · try dsimp only
              exact hI1
            · try dsimp only
              exact inode_write_TInv st1 d1 _ st2 d2 hiw hI1
          · try dsimp only
            exact hI1

theorem lfs_truncate_TInv (st : LfsState) (d : Disk) (path : List Nat) (size : Nat)
    (hI : TInv st) : TInv (lfs_truncate st d path size).1 := by
  unfold lfs_truncate
  by_cases hsz : size ≠ 0
  · rw [if_pos hsz]; exact hI
  · rw [if_neg hsz]
    rcases hres : path_to_inode st d path with e | ino
    · exact hI
    · try dsimp only
      rcases hread : inode_read st d ino with _ | n
      · exact hI
      · try dsimp only
        rcases hiw : inode_write st d
            { n with size := 0,
                     direct := (List.range MAX_DIRECT_PTRS).foldl
                                 (fun f i => updF f i 0) n.direct } with _ | ⟨st1, d1⟩
        · try dsimp only; exact hI
        · try dsimp only
          exact inode_write_TInv st d _ st1 d1 hiw hI

theorem lfs_create_rest_TInv (st1 : LfsState) (d1 : Disk) (ino : Nat) (name : List Nat)
    (hI1 : TInv st1) : TInv (lfs_create_rest st1 d1 ino name).1 := by
  unfold lfs_create_rest
  rcases hiw : inode_write st1 d1
      { inode_no := ino, type := 1, size := 0, nlinks := 1,
        direct := fun _ => 0, pad := fun _ => 0 } with _ | ⟨st2, d2⟩
  · try dsimp only
    exact hI1
  · try dsimp only
    have hI2 : TInv st2 := inode_write_TInv st1 d1 _ st2 d2 hiw hI1
    rcases hread : inode_read st2 d2 0 with _ | root
    · try dsimp only
      exact hI2
    · try dsimp only
      by_cases h4 : BLOCK_SIZE ≤ root.size / 32 * 32
      · rw [if_pos h4]; exact hI2
      · rw [if_neg h4]
        rcases happ : log_append_ex st2 d2
            (setDirent (d2 (root.direct 0)) (root.size / 32) ino name) 0 0
            with _ | ⟨st3, d3, nb⟩
        · try dsimp only
          exact hI2
        · try dsimp only
          have hI3 : TInv st3 := log_append_ex_TInv st2 d2 _ _ _ st3 d3 nb happ hI2
          rcases hiw2 : inode_write st3 d3
              { root with direct := updF root.direct 0 nb,
                          size := root.size + 32 } with _ | ⟨st4, d4⟩
          · try dsimp only
            exact hI3
          · try dsimp only
            exact inode_write_TInv st3 d3 _ st4 d4 hiw2 hI3

theorem lfs_create_TInv (st : LfsState) (d : Disk) (path : List Nat)
    (hI : TInv st) : TInv (lfs_create st d path).1 := by
  unfold lfs_create
  by_cases h1 : path.headD 0 ≠ 47 ∨ 47 ∈ path.drop 1
  · rw [if_pos h1]; exact hI
  · rw [if_neg h1]
    by_cases h2 : MAX_NAME_LEN ≤ (path.drop 1).length
    · rw [if_pos h2]; exact hI
    · rw [if_neg h2]
      by_cases h3 : ¬ (path_to_inode st d path = .error .ENOENT)
      · rw [if_pos h3]; exact hI
      · rw [if_neg h3]
        rcases halloc : inode_alloc st with _ | ino
        · exact hI
        · try dsimp only
          by_cases hg : gc_should_run st = true
          · rw [if_pos hg]
            rcases hcol : gc_collect st d with ⟨stg, dg, f⟩
            have hIg : TInv stg := by
              have := gc_collect_TInv st d hI
              rw [hcol] at this
              exact this
            try dsimp only
            exact lfs_create_rest_TInv stg dg ino (path.drop 1) hIg
          · rw [if_neg hg]
            exact lfs_create_rest_TInv st d ino (path.drop 1) hI

theorem lfs_init_checkpoint_TInv (st : LfsState) (d : Disk) (st1 : LfsState)
    (hI : TInv st) (h : lfs_init (log_checkpoint st d) = some st1) : TInv st1 := by
  obtain ⟨i1, i2, i3, i4, i5⟩ := hI
  have hd0 : log_checkpoint st d 0 = encodeSb st.sb := by
    unfold log_checkpoint
    rw [diskWrite_self]
  unfold lfs_init at h
  rw [hd0] at h
  have hmg : (decodeSb (encodeSb st.sb)).magic = LFS_MAGIC := by
    rw [decode_encodeSb_magic, i5]
    decide
  rw [if_neg (by rw [hmg]; exact fun hc => hc rfl)] at h
  simp only [Option.some.injEq] at h
  have htl : (decodeSb (encodeSb st.sb)).log_tail = st.log_tail := by
    rw [decode_encodeSb_log_tail, i3]
    omega
  have htot : (decodeSb (encodeSb st.sb)).total_blocks = 1024 := by
    rw [decode_encodeSb_total, i4]
  subst h
  refine ⟨?_, ?_, rfl, htot, hmg⟩
  · show 6 ≤ (decodeSb (encodeSb st.sb)).log_tail
    rw [htl]
    omega
  · show (decodeSb (encodeSb st.sb)).log_tail ≤ 1024
    rw [htl]
    omega

/-- The reachable states: the mounted fresh image, closed under the mutating
filesystem operations and under remounting after the unmount checkpoint.
getattr, readdir and read do not touch the state. -/
inductive Reach : LfsState → Disk → Prop where
  | mount : ∀ st, lfs_init mkfsDisk = some st → Reach st mkfsDisk
  | write : ∀ st d path offset size buf, Reach st d →
      Reach (lfs_write st d path offset size buf).1 (lfs_write st d path offset size buf).2.1
  | truncate : ∀ st d path size, Reach st d →
      Reach (lfs_truncate st d path size).1 (lfs_truncate st d path size).2.1
  | create : ∀ st d path, Reach st d →
      Reach (lfs_create st d path).1 (lfs_create st d path).2.1
  | remount : ∀ st d st1, Reach st d → lfs_init (log_checkpoint st d) = some st1 →
      Reach st1 (log_checkpoint st d)

theorem lfs_init_mkfs : lfs_init mkfsDisk = some st0 := rfl

theorem reach_TInv (st : LfsState) (d : Disk) (h : Reach st d) : TInv st := by
  induction h with
  | mount st hm =>
      rw [lfs_init_mkfs] at hm
      simp only [Option.some.injEq] at hm
      subst hm
      refine ⟨?_, ?_, ?_, ?_, ?_⟩ <;> decide
  | write st d path offset size buf _ ih => exact lfs_write_TInv st d path offset size buf ih
  | truncate st d path size _ ih => exact lfs_truncate_TInv st d path size ih
  | create st d path _ ih => exact lfs_create_TInv st d path ih
  | remount st d st1 _ hm ih => exact lfs_init_checkpoint_TInv st d st1 ih hm

/-- Claim C4 (amended): in every reachable state — the mounted fresh image,
after any sequence of filesystem operations, and across remounts — the log
tail lies in [6, 1024].  The formatter starts the tail at block 6, below the
first log block 10, so the claimed lower bound 10 does not hold. -/
theorem c4_tail_bounds (st : LfsState) (d : Disk) (h : Reach st d) :
    6 ≤ st.log_tail ∧ st.log_tail ≤ 1024 := by
  have hI := reach_TInv st d h
  exact ⟨hI.1, hI.2.1⟩

/-- Counterexample to C4 as stated: the freshly formatted image mounts with
log tail 6, which is below LOG_START_BLOCK = 10. -/
theorem c4_fresh_tail_counterexample :
    (lfs_init mkfsDisk).map (fun s => s.log_tail) = some 6 ∧ 6 < LOG_START_BLOCK := by
  exact ⟨by decide, by decide⟩

/-- Witness for the amended C4 at the mounted fresh image. -/
theorem c4_tail_bounds_witness : 6 ≤ st0.log_tail ∧ st0.log_tail ≤ 1024 :=
  c4_tail_bounds st0 mkfsDisk (Reach.mount st0 lfs_init_mkfs)

/-! ## Path resolution and long names -/

theorem findEntry_none (buf : Block) (name : List Nat) :
    ∀ l : List Nat, (∀ i ∈ l, readCStr buf (32 * i + 4) 4096 ≠ name) →
      findEntry buf name l = none := by
  intro l
  induction l with
  | nil => intro _; rfl
  | cons i rest ih =>
      intro hne
      unfold findEntry
      rw [if_neg (fun hc => hne i (List.mem_cons_self _ _) hc.2)]
      exact ih (fun j hj => hne j (List.mem_cons_of_mem _ hj))

/-- Claim C7 (amended): path resolution on the read path performs no name
length check: a path whose leaf name is 28 bytes or longer fails with
not-found (never with name-too-long), because no stored directory entry
name — at most 27 bytes plus NUL — can compare equal to it. -/
theorem c7_long_name_not_found (st : LfsState) (d : Disk) (path : List Nat)
    (hlen : MAX_NAME_LEN ≤ (path.drop 1).length)
    (hroot : st.inode_map 0 ≠ 0)
    (hnames : ∀ i, i < (decodeInode (d (st.inode_map 0))).size / 32 →
      (readCStr (d ((decodeInode (d (st.inode_map 0))).direct 0)) (32 * i + 4) 4096).length
        < MAX_NAME_LEN) :
    path_to_inode st d path = .error .ENOENT := by
  unfold path_to_inode
  have hne : path ≠ [47] := by
    intro hc
    rw [hc] at hlen
    simp [MAX_NAME_LEN] at hlen
  rw [if_neg hne]
  by_cases hsl : 47 ∈ path.drop 1
  · rw [if_pos hsl]
  · rw [if_neg hsl]
    have hread : inode_read st d 0 = some (decodeInode (d (st.inode_map 0))) := by
      unfold inode_read
      rw [if_neg (by unfold INODE_MAP_SIZE; omega), if_neg hroot]
    rw [hread]
    dsimp only
    rw [findEntry_none _ _ _ (fun i hi hc => ?_)]
    have hil := List.mem_range.1 hi
    have := hnames i hil
    rw [hc] at this
    omega

/-- Counterexample to C7 as stated: on the formatted image, looking up a
28-byte leaf name yields not-found, not name-too-long. -/
theorem c7_long_name_counterexample :
    path_to_inode st0 mkfsDisk (47 :: List.replicate 28 97) = .error .ENOENT ∧
    Errno.ENOENT ≠ Errno.ENAMETOOLONG := by
  exact ⟨by decide, by decide⟩

/-- Witness for the amended C7 at the formatted image with a 29-byte name. -/
theorem c7_long_name_not_found_witness :
    path_to_inode st0 mkfsDisk (47 :: List.replicate 29 98) = .error .ENOENT :=
  c7_long_name_not_found st0 mkfsDisk (47 :: List.replicate 29 98)
    (by decide) (by decide) (by decide)

/-! ## The write path bounds -/

theorem gc_should_run_false (st : LfsState) (htot : st.sb.total_blocks = 1024)
    (ht : st.log_tail ≤ 324) : gc_should_run st = false := by
  simp only [gc_should_run]
  rw [decide_eq_false]
  unfold u32sub GC_THRESHOLD
  rw [htot]
  omega

theorem write_go_ok (ino : Nat) (buf : Nat → Nat) (offset size : Nat) :
    ∀ (l : List Nat) (n : Inode) (st : LfsState) (d : Disk),
      st.sb.total_blocks = 1024 →
      st.log_tail + l.length ≤ 325 →
      ∃ n1 st1 d1, write_go ino buf offset size l n st d = ((n1, st1, d1), none) ∧
        st1.log_tail = st.log_tail + l.length ∧
        st1.sb.total_blocks = 1024 ∧
        n1.inode_no = n.inode_no := by
  intro l
  induction l with
  | nil =>
      intro n st d htot hlen
      exact ⟨n, st, d, rfl, by simp, htot, rfl⟩
  | cons blk rest ih =>
      intro n st d htot hlen
      unfold write_go
      have hgc : gc_should_run st = false :=
        gc_should_run_false st htot (by simp only [List.length_cons] at hlen; omega)
      rw [if_neg (by rw [hgc]; exact Bool.false_ne_true)]
      rcases happ : log_append_ex st d _ ino blk with _ | ⟨st2, d2, nb⟩
      · exfalso
        rw [log_append_ex_none_iff] at happ
        simp only [List.length_cons] at hlen
        omega
      · try dsimp only
        obtain ⟨_, ht2, hsb2, _, _, _, _⟩ :=
          log_append_ex_some_parts st d _ ino blk st2 d2 nb happ
        have htot2 : st2.sb.total_blocks = 1024 := by rw [hsb2]; exact htot
        obtain ⟨n1, st1, d1, heq, htail1, htot1, hinop⟩ :=
          ih { n with direct := updF n.direct blk nb } st2 d2 htot2
            (by simp only [List.length_cons] at hlen; omega)
        refine ⟨n1, st1, d1, heq, ?_, htot1, hinop⟩
        rw [htail1, ht2]
        simp only [List.length_cons]
        omega

/-- Claim C5: on a resolvable file, lfs_write fails with too-large exactly
when offset ≥ D·B = 40960; below that bound the length is clamped so that
offset + length ≤ 40960 and (given free space so that no GC fires and the
log cannot fill) the write succeeds, returning the clamped length.  In
particular a 1-byte write at offset 40959 succeeds and any write at offset
40960 fails too-large. -/
theorem c5_write_too_large (st : LfsState) (d : Disk) (path : List Nat)
    (offset size : Nat) (buf : Nat → Nat) (i : Nat)
    (hres : path_to_inode st d path = .ok i)
    (hi : i < INODE_MAP_SIZE) (hmap : st.inode_map i ≠ 0)
    (hty : (decodeInode (d (st.inode_map i))).type = 1)
    (hino : (decodeInode (d (st.inode_map i))).inode_no = i)
    (htot : st.sb.total_blocks = 1024)
    (ht : st.log_tail ≤ 314)
    (hsz : 0 < size) :
    ((lfs_write st d path offset size buf).2.2 = .error .EFBIG ↔ 40960 ≤ offset) ∧
    (offset < 40960 →
      (lfs_write st d path offset size buf).2.2 =
        .ok (if 40960 < offset + size then 40960 - offset else size)) := by
  unfold lfs_write
  rw [hres]
  try dsimp only
  have hread : inode_read st d i = some (decodeInode (d (st.inode_map i))) := by
    unfold inode_read
    rw [if_neg (by omega), if_neg hmap]
  rw [hread]
  try dsimp only
  rw [if_neg (by rw [hty]; omega)]
  have hmb : MAX_DIRECT_PTRS * BLOCK_SIZE = 40960 := by decide
  by_cases hoff : MAX_DIRECT_PTRS * BLOCK_SIZE ≤ offset
  · rw [if_pos hoff]
    constructor
    · constructor
      · intro _; omega
      · intro _; rfl
    · intro hc; omega
  · rw [if_neg hoff]
    try dsimp only
    unfold MAX_DIRECT_PTRS BLOCK_SIZE at hoff ⊢
    obtain ⟨s1, hs1⟩ : ∃ s1, (if 10 * 4096 < offset + size
        then 10 * 4096 - offset else size) = s1 := ⟨_, rfl⟩
    rw [hs1]
    have hsz1 : 1 ≤ s1 := by
      rw [← hs1]
      by_cases hc : 10 * 4096 < offset + size
      · rw [if_pos hc]; omega
      · rw [if_neg hc]; omega
    have hsum : offset + s1 ≤ 40960 := by
      rw [← hs1]
      by_cases hc : 10 * 4096 < offset + size
      · rw [if_pos hc]; omega
      · rw [if_neg hc]; omega
    have hlen : ((offset + s1 - 1) / 4096 + 1 - offset / 4096) ≤ 10 := by
      omega
    obtain ⟨n1, st1, d1, heq, htail1, htot1, hinop⟩ :=
      write_go_ok i buf offset s1
        (List.range' (offset / 4096)
          ((offset + s1 - 1) / 4096 + 1 - offset / 4096))
        (decodeInode (d (st.inode_map i))) st d htot
        (by rw [List.length_range']; omega)
    rw [heq]
    try dsimp only
    have hiw : (inode_write st1 d1
        (if n1.size < offset + s1
         then { n1 with size := offset + s1 }
         else n1)).isSome = true := by
      apply inode_write_isSome
      · by_cases hc : n1.size < offset + s1
        · rw [if_pos hc]
          show n1.inode_no < INODE_MAP_SIZE
          rw [hinop, hino]
          exact hi
        · rw [if_neg hc]
          rw [hinop, hino]
          exact hi
      · rw [htail1, htot1, List.length_range']
        omega
    rcases hiww : inode_write st1 d1
        (if n1.size < offset + s1
         then { n1 with size := offset + s1 }
         else n1) with _ | ⟨st2, d2⟩
    · rw [hiww] at hiw
      exact absurd hiw (by simp)
    · try dsimp only
      constructor
      · constructor
        · intro hc
          exact absurd hc (by simp)
        · intro hc; omega
      · intro _
        rw [← hs1]

/-- Witness for C5: on the mounted fresh image, a 1-byte write to hello.txt
at offset 40959 succeeds with count 1, and the too-large test is settled. -/
theorem c5_write_too_large_witness :
    (((lfs_write st0 mkfsDisk (47 :: helloName) 40959 1 (fun _ => 1)).2.2
        = .error .EFBIG ↔ 40960 ≤ 40959) ∧
     (40959 < 40960 →
       (lfs_write st0 mkfsDisk (47 :: helloName) 40959 1 (fun _ => 1)).2.2 =
         .ok (if 40960 < 40959 + 1 then 40960 - 40959 else 1))) :=
  c5_write_too_large st0 mkfsDisk (47 :: helloName) 40959 1 (fun _ => 1) 1
    (by decide) (by decide) (by decide) (by decide) (by decide) (by decide)
    (by decide) (by decide)

/-! ## Frame lemmas for truncate -/

theorem inode_read_eq (st : LfsState) (d : Disk) (i : Nat)
    (hi : i < INODE_MAP_SIZE) (hmap : st.inode_map i ≠ 0) :
    inode_read st d i = some (decodeInode (d (st.inode_map i))) := by
  unfold inode_read
  rw [if_neg (by omega), if_neg hmap]

theorem log_checkpoint_frame (st : LfsState) (d : Disk) (x : Nat)
    (h0 : x ≠ 0) (h1 : x ≠ INODE_MAP_BLOCK) : log_checkpoint st d x = d x := by
  unfold log_checkpoint
  rw [diskWrite_ne _ _ _ _ h0, diskWrite_ne _ _ _ _ h1]

theorem foldl_clear_lt (f : Nat → Nat) :
    ∀ (m j : Nat), j < m → ((List.range m).foldl (fun g i => updF g i 0) f) j = 0 := by
  intro m
  induction m with
  | zero => intro j hj; omega
  | succ m ih =>
      intro j hj
      rw [List.range_succ, List.foldl_append]
      simp only [List.foldl_cons, List.foldl_nil]
      by_cases hjm : j = m
      · rw [hjm, updF_self]
      · rw [updF_ne _ _ _ _ hjm]
        exact ih j (by omega)

theorem path_to_inode_eq (stA stB : LfsState) (dA dB : Disk) (path : List Nat)
    (hm : stB.inode_map 0 = stA.inode_map 0)
    (hd1 : dB (stA.inode_map 0) = dA (stA.inode_map 0))
    (hd2 : dB ((decodeInode (dA (stA.inode_map 0))).direct 0)
         = dA ((decodeInode (dA (stA.inode_map 0))).direct 0)) :
    path_to_inode stB dB path = path_to_inode stA dA path := by
  unfold path_to_inode
  by_cases hp : path = [47]
  · rw [if_pos hp, if_pos hp]
  · rw [if_neg hp, if_neg hp]
    by_cases hsl : 47 ∈ path.drop 1
    · rw [if_pos hsl, if_pos hsl]
    · rw [if_neg hsl, if_neg hsl]
      have hrA : inode_read stA dA 0 =
          (if stA.inode_map 0 = 0 then none
           else some (decodeInode (dA (stA.inode_map 0)))) := by
        unfold inode_read
        rw [if_neg (by unfold INODE_MAP_SIZE; omega)]
      have hrB : inode_read stB dB 0 =
          (if stA.inode_map 0 = 0 then none
           else some (decodeInode (dB (stA.inode_map 0)))) := by
        unfold inode_read
        rw [if_neg (by unfold INODE_MAP_SIZE; omega), hm]
      rw [hrA, hrB]
      by_cases hz : stA.inode_map 0 = 0
      · rw [if_pos hz, if_pos hz]
      · rw [if_neg hz, if_neg hz]
        try dsimp only
        rw [hd1, hd2]

/-- Claim C6: truncate with a nonzero size fails with permission-denied and
changes nothing; truncate to zero on a resolvable file succeeds, zeroes the
inode's size, clears all ten direct pointers and writes the new inode copy
through the inode layer followed by a checkpoint, so that an immediately
following getattr reports size 0 and any following read returns zero
bytes.  The block-distinctness hypotheses say that the root inode block and
the root directory block are not overwritten by the appended inode, its
segment-summary update, or the checkpoint. -/
theorem c6_truncate_contract (st : LfsState) (d : Disk) (path : List Nat) (i : Nat)
    (hres : path_to_inode st d path = .ok i)
    (hi : i < INODE_MAP_SIZE) (hi0 : i ≠ 0) (hmap : st.inode_map i ≠ 0)
    (hino : (decodeInode (d (st.inode_map i))).inode_no = i)
    (hty : (decodeInode (d (st.inode_map i))).type = 1)
    (htot : st.sb.total_blocks = 1024)
    (ht2 : 2 ≤ st.log_tail) (htl : st.log_tail < 1024)
    (hrb0 : st.inode_map 0 ≠ 0)
    (hrb1 : st.inode_map 0 ≠ 1)
    (hrbt : st.inode_map 0 ≠ st.log_tail)
    (hrbs : st.inode_map 0 ≠ get_summary_block st.log_tail)
    (hdb0 : (decodeInode (d (st.inode_map 0))).direct 0 ≠ 0)
    (hdb1 : (decodeInode (d (st.inode_map 0))).direct 0 ≠ 1)
    (hdbt : (decodeInode (d (st.inode_map 0))).direct 0 ≠ st.log_tail)
    (hdbs : (decodeInode (d (st.inode_map 0))).direct 0 ≠ get_summary_block st.log_tail) :
    (∀ sz, sz ≠ 0 → lfs_truncate st d path sz = (st, d, .error .EPERM)) ∧
    (lfs_truncate st d path 0).2.2 = .ok 0 ∧
    ((lfs_getattr (lfs_truncate st d path 0).1 (lfs_truncate st d path 0).2.1 path).toOption.map
        (fun s => s.st_size) = some 0) ∧
    (∀ sz off, ((lfs_read (lfs_truncate st d path 0).1 (lfs_truncate st d path 0).2.1
        path sz off).toOption.map (fun p => p.1)) = some 0) ∧
    (∀ j, j < MAX_DIRECT_PTRS →
      (inode_read (lfs_truncate st d path 0).1 (lfs_truncate st d path 0).2.1 i).map
        (fun m => m.direct j) = some 0) ∧
    ((inode_read (lfs_truncate st d path 0).1 (lfs_truncate st d path 0).2.1 i).map
        (fun m => m.size) = some 0) := by
  constructor
  · intro sz hsz
    unfold lfs_truncate
    rw [if_pos hsz]
  -- the truncate-to-zero run
  have hread : inode_read st d i = some (decodeInode (d (st.inode_map i))) :=
    inode_read_eq st d i hi hmap
  have hiwS : (inode_write st d
      { decodeInode (d (st.inode_map i)) with
        size := 0,
        direct := (List.range MAX_DIRECT_PTRS).foldl (fun f j => updF f j 0)
                    (decodeInode (d (st.inode_map i))).direct }).isSome = true := by
    apply inode_write_isSome
    · show (decodeInode (d (st.inode_map i))).inode_no < INODE_MAP_SIZE
      rw [hino]
      exact hi
    · omega
  rcases hiw : inode_write st d
      { decodeInode (d (st.inode_map i)) with
        size := 0,
        direct := (List.range MAX_DIRECT_PTRS).foldl (fun f j => updF f j 0)
                    (decodeInode (d (st.inode_map i))).direct } with _ | ⟨st1, d1⟩
  · rw [hiw] at hiwS
    exact absurd hiwS (by simp)
  obtain ⟨hp1, hp2, hp3, hp4, hp5, hp6, hp7⟩ := inode_write_some_parts st d _ st1 d1 hiw
  rw [hino] at hp3
  have hpost2 : lfs_truncate st d path 0 = (st1, log_checkpoint st1 d1, .ok 0) := by
    unfold lfs_truncate
    rw [if_neg (by omega), hres]
    try dsimp only
    rw [hread]
    try dsimp only
    rw [hiw]
  rw [hpost2]
  try dsimp only
  -- facts about the post state
  have hmap1_0 : st1.inode_map 0 = st.inode_map 0 := by
    rw [hp3]
    exact updF_ne _ _ _ _ (fun hc => hi0 hc.symm)
  have hmap1_i : st1.inode_map i = st.log_tail := by
    rw [hp3]
    exact updF_self _ _ _
  have hd2rb : log_checkpoint st1 d1 (st.inode_map 0) = d (st.inode_map 0) := by
    rw [log_checkpoint_frame st1 d1 _ hrb0 hrb1, hp7 _ hrbt hrbs]
  have hd2db : log_checkpoint st1 d1 ((decodeInode (d (st.inode_map 0))).direct 0)
      = d ((decodeInode (d (st.inode_map 0))).direct 0) := by
    rw [log_checkpoint_frame st1 d1 _ hdb0 hdb1, hp7 _ hdbt hdbs]
  have hd2t : log_checkpoint st1 d1 st.log_tail =
      encodeInode { decodeInode (d (st.inode_map i)) with
        size := 0,
        direct := (List.range MAX_DIRECT_PTRS).foldl (fun f j => updF f j 0)
                    (decodeInode (d (st.inode_map i))).direct } := by
    rw [log_checkpoint_frame st1 d1 _ (by omega) (by unfold INODE_MAP_BLOCK; omega), hp6]
  have hres1 : path_to_inode st1 (log_checkpoint st1 d1) path = .ok i := by
    rw [path_to_inode_eq st st1 d (log_checkpoint st1 d1) path hmap1_0 hd2rb hd2db, hres]
  have hread1 : inode_read st1 (log_checkpoint st1 d1) i =
      some (decodeInode (log_checkpoint st1 d1 (st.log_tail))) := by
    rw [inode_read_eq st1 _ i hi (by rw [hmap1_i]; omega), hmap1_i]
  have hn1dir : ∀ j, j < MAX_DIRECT_PTRS →
      ({ decodeInode (d (st.inode_map i)) with
         size := 0,
         direct := (List.range MAX_DIRECT_PTRS).foldl (fun f j => updF f j 0)
                     (decodeInode (d (st.inode_map i))).direct } : Inode).direct j = 0 :=
    fun j hj => foldl_clear_lt _ MAX_DIRECT_PTRS j hj
  refine ⟨rfl, ?_, ?_, ?_, ?_⟩
  · unfold lfs_getattr
    rw [hres1]
    try dsimp only
    rw [hread1]
    try dsimp only
    simp only [Except.toOption, Option.map_some]
    rw [hd2t, decode_encodeInode_size]
    rfl
  · intro sz off
    unfold lfs_read
    rw [hres1]
    try dsimp only
    rw [hread1]
    try dsimp only
    rw [hd2t]
    rw [if_neg (by rw [decode_encodeInode_type]; show ¬ _ ≠ _; rw [hty]; omega)]
    rw [if_pos (by rw [decode_encodeInode_size]; show 0 % 4294967296 ≤ off; omega)]
    simp [Except.toOption]
  · intro j hj
    rw [hread1]
    simp only [Option.map_some']
    rw [hd2t, decode_encodeInode_direct _ j (by unfold MAX_DIRECT_PTRS at hj; omega),
      hn1dir j hj]
  · rw [hread1]
    simp only [Option.map_some']
    rw [hd2t, decode_encodeInode_size]
    rfl

/-- Witness for C6 at the mounted fresh image, truncating hello.txt. -/
theorem c6_truncate_contract_witness :
    ((∀ sz, sz ≠ 0 →
        lfs_truncate st0 mkfsDisk (47 :: helloName) sz = (st0, mkfsDisk, .error .EPERM)) ∧
     (lfs_truncate st0 mkfsDisk (47 :: helloName) 0).2.2 = .ok 0 ∧
     ((lfs_getattr (lfs_truncate st0 mkfsDisk (47 :: helloName) 0).1
         (lfs_truncate st0 mkfsDisk (47 :: helloName) 0).2.1
         (47 :: helloName)).toOption.map (fun s => s.st_size) = some 0) ∧
     (∀ sz off, ((lfs_read (lfs_truncate st0 mkfsDisk (47 :: helloName) 0).1
         (lfs_truncate st0 mkfsDisk (47 :: helloName) 0).2.1
         (47 :: helloName) sz off).toOption.map (fun p => p.1)) = some 0) ∧
     (∀ j, j < MAX_DIRECT_PTRS →
       (inode_read (lfs_truncate st0 mkfsDisk (47 :: helloName) 0).1
         (lfs_truncate st0 mkfsDisk (47 :: helloName) 0).2.1 1).map
         (fun m => m.direct j) = some 0) ∧
     ((inode_read (lfs_truncate st0 mkfsDisk (47 :: helloName) 0).1
         (lfs_truncate st0 mkfsDisk (47 :: helloName) 0).2.1 1).map
         (fun m => m.size) = some 0)) :=
  c6_truncate_contract st0 mkfsDisk (47 :: helloName) 1
    (by decide) (by decide) (by decide) (by decide) (by decide) (by decide)
    (by decide) (by decide) (by decide) (by decide) (by decide) (by decide)
    (by decide) (by decide) (by decide) (by decide) (by decide)

/-- Claim C9: lfs_truncate performs no file-type check: on the root path,
where lfs_read and lfs_write fail with is-directory, truncate(path, 0)
succeeds, setting the root directory inode's size to 0 and clearing all of
its direct pointers, which empties the directory (readdir afterwards yields
only the unconditional dot and dotdot entries). -/
theorem c9_truncate_no_type_check (st : LfsState) (d : Disk)
    (hrb0 : st.inode_map 0 ≠ 0)
    (hino0 : (decodeInode (d (st.inode_map 0))).inode_no = 0)
    (hty2 : (decodeInode (d (st.inode_map 0))).type = 2)
    (htot : st.sb.total_blocks = 1024)
    (ht2 : 2 ≤ st.log_tail) (htl : st.log_tail < 1024) :
    (∀ sz off, lfs_read st d [47] sz off = .error .EISDIR) ∧
    (∀ off sz buf, (lfs_write st d [47] off sz buf).2.2 = .error .EISDIR) ∧
    (lfs_truncate st d [47] 0).2.2 = .ok 0 ∧
    ((inode_read (lfs_truncate st d [47] 0).1 (lfs_truncate st d [47] 0).2.1 0).map
        (fun m => m.size) = some 0) ∧
    (∀ j, j < MAX_DIRECT_PTRS →
      (inode_read (lfs_truncate st d [47] 0).1 (lfs_truncate st d [47] 0).2.1 0).map
        (fun m => m.direct j) = some 0) ∧
    (lfs_readdir (lfs_truncate st d [47] 0).1 (lfs_truncate st d [47] 0).2.1 [47]
      = .ok [[46], [46, 46]]) := by
  have hres : path_to_inode st d [47] = .ok 0 := by
    unfold path_to_inode
    rw [if_pos rfl]
  have hread : inode_read st d 0 = some (decodeInode (d (st.inode_map 0))) :=
    inode_read_eq st d 0 (by unfold INODE_MAP_SIZE; omega) hrb0
  refine ⟨?_, ?_, ?_⟩
  · intro sz off
    unfold lfs_read
    rw [hres]
    try dsimp only
    rw [hread]
    try dsimp only
    rw [if_pos (by rw [hty2]; omega)]
  · intro off sz buf
    unfold lfs_write
    rw [hres]
    try dsimp only
    rw [hread]
    try dsimp only
    rw [if_pos (by rw [hty2]; omega)]
  -- the truncate run
  have hiwS : (inode_write st d
      { decodeInode (d (st.inode_map 0)) with
        size := 0,
        direct := (List.range MAX_DIRECT_PTRS).foldl (fun f j => updF f j 0)
                    (decodeInode (d (st.inode_map 0))).direct }).isSome = true := by
    apply inode_write_isSome
    · show (decodeInode (d (st.inode_map 0))).inode_no < INODE_MAP_SIZE
      rw [hino0]
      unfold INODE_MAP_SIZE
      omega
    · omega
  rcases hiw : inode_write st d
      { decodeInode (d (st.inode_map 0)) with
        size := 0,
        direct := (List.range MAX_DIRECT_PTRS).foldl (fun f j => updF f j 0)
                    (decodeInode (d (st.inode_map 0))).direct } with _ | ⟨st1, d1⟩
  · rw [hiw] at hiwS
    exact absurd hiwS (by simp)
  obtain ⟨hp1, hp2, hp3, hp4, hp5, hp6, hp7⟩ := inode_write_some_parts st d _ st1 d1 hiw
  rw [hino0] at hp3
  have hpost2 : lfs_truncate st d [47] 0 = (st1, log_checkpoint st1 d1, .ok 0) := by
    unfold lfs_truncate
    rw [if_neg (by omega), hres]
    try dsimp only
    rw [hread]
    try dsimp only
    rw [hiw]
  rw [hpost2]
  try dsimp only
  have hmap1_0 : st1.inode_map 0 = st.log_tail := by
    rw [hp3]
    exact updF_self _ _ _
  have hd2t : log_checkpoint st1 d1 st.log_tail =
      encodeInode { decodeInode (d (st.inode_map 0)) with
        size := 0,
        direct := (List.range MAX_DIRECT_PTRS).foldl (fun f j => updF f j 0)
                    (decodeInode (d (st.inode_map 0))).direct } := by
    rw [log_checkpoint_frame st1 d1 _ (by omega) (by unfold INODE_MAP_BLOCK; omega), hp6]
  have hread1 : inode_read st1 (log_checkpoint st1 d1) 0 =
      some (decodeInode (log_checkpoint st1 d1 st.log_tail)) := by
    rw [inode_read_eq st1 _ 0 (by unfold INODE_MAP_SIZE; omega)
      (by rw [hmap1_0]; omega), hmap1_0]
  have hn1dir : ∀ j, j < MAX_DIRECT_PTRS →
      ({ decodeInode (d (st.inode_map 0)) with
         size := 0,
         direct := (List.range MAX_DIRECT_PTRS).foldl (fun f j => updF f j 0)
                     (decodeInode (d (st.inode_map 0))).direct } : Inode).direct j = 0 :=
    fun j hj => foldl_clear_lt _ MAX_DIRECT_PTRS j hj
  refine ⟨rfl, ?_, ?_, ?_⟩
  · rw [hread1]
    simp only [Option.map_some']
    rw [hd2t, decode_encodeInode_size]
    rfl
  · intro j hj
    rw [hread1]
    simp only [Option.map_some']
    rw [hd2t, decode_encodeInode_direct _ j (by unfold MAX_DIRECT_PTRS at hj; omega),
      hn1dir j hj]
  · unfold lfs_readdir
    have hres1 : path_to_inode st1 (log_checkpoint st1 d1) [47] = .ok 0 := by
      unfold path_to_inode
      rw [if_pos rfl]
    rw [hres1]
    try dsimp only
    rw [hread1]
    try dsimp only
    rw [hd2t]
    rw [if_neg (by
      rw [decode_encodeInode_type]
      show ¬ ((decodeInode (d (st.inode_map 0))).type % 4294967296 ≠ 2)
      rw [hty2]
      omega)]
    rw [decode_encodeInode_size]
    simp

/-- Witness for C9 at the mounted fresh image: truncating the root path. -/
theorem c9_truncate_no_type_check_witness :
    ((∀ sz off, lfs_read st0 mkfsDisk [47] sz off = .error .EISDIR) ∧
     (∀ off sz buf, (lfs_write st0 mkfsDisk [47] off sz buf).2.2 = .error .EISDIR) ∧
     (lfs_truncate st0 mkfsDisk [47] 0).2.2 = .ok 0 ∧
     ((inode_read (lfs_truncate st0 mkfsDisk [47] 0).1
         (lfs_truncate st0 mkfsDisk [47] 0).2.1 0).map (fun m => m.size) = some 0) ∧
     (∀ j, j < MAX_DIRECT_PTRS →
       (inode_read (lfs_truncate st0 mkfsDisk [47] 0).1
         (lfs_truncate st0 mkfsDisk [47] 0).2.1 0).map (fun m => m.direct j) = some 0) ∧
     (lfs_readdir (lfs_truncate st0 mkfsDisk [47] 0).1
         (lfs_truncate st0 mkfsDisk [47] 0).2.1 [47] = .ok [[46], [46, 46]])) :=
  c9_truncate_no_type_check st0 mkfsDisk
    (by decide) (by decide) (by decide) (by decide) (by decide) (by decide)

/-! ## The write-read round trip across a segment boundary -/

/-- A well-formed state identical to the freshly formatted image except that
the log tail has advanced to 32 — the summary position of segment 1. -/
def c2St : LfsState where
  sb := { mkfsSb with log_tail := 32 }
  inode_map := mkfsImap
  log_tail := 32

/-- The written buffer: every byte 170. -/
def c2Buf : Nat → Nat := fun _ => 170

/-- The write of 4096 bytes to hello.txt at offset 0 from the tail-32 state. -/
def c2w : LfsState × Disk × Except Errno Nat :=
  lfs_write c2St mkfsDisk (47 :: helloName) 0 4096 c2Buf

/-- The immediately following read of the same 4096 bytes. -/
def c2r : Except Errno (Nat × (Nat → Nat)) :=
  lfs_read c2w.1 c2w.2.1 (47 :: helloName) 4096 0

set_option maxRecDepth 40000 in
/-- Claim C2 is violated by the code: from a well-formed state with the tail
at 32, a write to hello.txt of 4096 bytes of 0xAA at offset 0 succeeds
returning 4096, no GC
fires (992 free blocks), and the immediately following read of the same
range returns 4096 bytes whose byte 8 is 0, not the 0xAA that was written
(byte 0 is intact).  The data block was appended at block 32, the summary
position of segment 1, and the very next append (the rewritten inode at
block 33) re-read block 32 as a segment summary, stored the owner pair
(0, 0) into its entry 1 — bytes 8..15 — and wrote it back, corrupting the
file data. -/
theorem c2_write_read_corruption :
    c2w.2.2 = .ok 4096 ∧
    gc_should_run c2St = false ∧
    c2r.toOption.map (fun p => p.1) = some 4096 ∧
    c2r.toOption.map (fun p => p.2 0) = some 170 ∧
    c2r.toOption.map (fun p => p.2 8) = some 0 ∧
    c2Buf 8 = 170 := by
  refine ⟨?_, ?_, ?_, ?_, ?_, rfl⟩ <;> decide

end LFS
